import Mathlib

/-!
# Verification of the run-orchestration pipeline of `energy-market-prediction`

A shallow embedding of the backend orchestration core:

* `backend/src/controllers/optimize.controller.js` — `runOptimization`
* `backend/src/services/params.service.js` — `replaceValue`, `toPythonValue`,
  `validateParams`, `updateParams`
* `backend/src/services/python.service.js` — `runCmd`, `makeSnapshot`,
  `runOptimizer`, `runForecast`
* `backend/src/utils/cleanup.js` — `safeDelete`

JavaScript numbers are modelled as exact decimals (`JsNum.dec m e`, the value
`m / 10 ^ e`) together with `nan` and signed-infinity constructors; the
claims under scrutiny never perform arithmetic on them, only presence
checks and serialization (IEEE-754 rounding of long decimals is outside
the model).
The filesystem is an association list from paths to contents, and the three
external Python jobs are opaque: an environment supplies each one's exit
status, captured output streams, and the files it produces, as the spec
describes them.
-/

set_option maxRecDepth 20000

namespace NRG

/-! ## JavaScript-like values -/

/-- A JavaScript number: NaN, a signed infinity (`inf true` is `+Infinity`),
or the exact decimal `m / 10 ^ e`.  Doubles are modelled as exact decimals:
IEEE rounding is not representable here, but every claim and every concrete
input stays on short decimals where the double's shortest round-trip
rendering coincides with the exact one. -/
inductive JsNum where
  | nan : JsNum
  | inf : Bool → JsNum
  | dec : Int → Nat → JsNum
  deriving DecidableEq

/-- A JavaScript value as it reaches the orchestration core from the parsed
request body: `undefined`, `null`, a boolean, a string, or a number. -/
inductive JsVal where
  | undef : JsVal
  | null : JsVal
  | boolean : Bool → JsVal
  | str : String → JsVal
  | num : JsNum → JsVal
  deriving DecidableEq

/-- ASCII whitespace without the newline: the part of JS `\s` that cannot
end a line.  (Non-ASCII whitespace is not modelled; the artifact, the keys
and every value in scope are ASCII.) -/
def wsp (c : Char) : Bool :=
  c == ' ' || c == '\t' || c == '\r' || c == '\x0b' || c == '\x0c'

/-- JS `\s` (ASCII fragment): whitespace including the newline, which it
matches even under the `m` regex flag. -/
def jsWs (c : Char) : Bool :=
  wsp c || c == '\n'

/-- A JS LineTerminator (ASCII fragment): what `.` refuses to match and
what `^`/`$` anchor around under the `m` flag. -/
def isLineEnd (c : Char) : Bool :=
  c == '\n' || c == '\r'

/-- Numeric value of a digit run (most significant first). -/
def digitsVal (cs : List Char) : Nat :=
  cs.foldl (fun acc c => acc * 10 + (c.toNat - 48)) 0

/-- Value of a hexadecimal digit. -/
def hexDigitVal (c : Char) : Option Nat :=
  if c.isDigit then some (c.toNat - 48)
  else if 'a' ≤ c ∧ c ≤ 'f' then some (c.toNat - 87)
  else if 'A' ≤ c ∧ c ≤ 'F' then some (c.toNat - 55)
  else none

/-- Value of a binary digit. -/
def binDigitVal (c : Char) : Option Nat :=
  if c == '0' then some 0 else if c == '1' then some 1 else none

/-- Value of an octal digit. -/
def octDigitVal (c : Char) : Option Nat :=
  if c.isDigit ∧ c ≤ '7' then some (c.toNat - 48) else none

/-- A non-empty all-valid digit run in the given radix, or `none`. -/
def radixVal (digVal : Char → Option Nat) (radix : Nat) (cs : List Char) : Option Nat :=
  if cs.isEmpty then none
  else
    cs.foldl
      (fun acc c =>
        match acc, digVal c with
        | some a, some d => some (a * radix + d)
        | _, _ => none)
      (some 0)

/-- The exact decimal `± mb / 10 ^ eb × 10 ^ x` (exponent applied). -/
def scaleDec (neg : Bool) (mb : Nat) (eb : Nat) (x : Int) : JsNum :=
  let sgn : Int := if neg then -1 else 1
  if (eb : Int) ≤ x then JsNum.dec (sgn * (mb : Int) * 10 ^ (x - (eb : Int)).toNat) 0
  else JsNum.dec (sgn * (mb : Int)) (((eb : Int) - x).toNat)

/-- An optionally signed decimal numeral with optional fraction and
optional `e`/`E` exponent part; anything else is NaN. -/
def parseDecCore (neg : Bool) (cs : List Char) : JsNum :=
  let ip := cs.takeWhile Char.isDigit
  let r1 := cs.dropWhile Char.isDigit
  let fr :=
    match r1 with
    | '.' :: t => (t.takeWhile Char.isDigit, t.dropWhile Char.isDigit)
    | _ => ([], r1)
  if ip.isEmpty && fr.1.isEmpty then JsNum.nan
  else
    let mb := digitsVal ip * 10 ^ fr.1.length + digitsVal fr.1
    match fr.2 with
    | [] => scaleDec neg mb fr.1.length 0
    | c :: t =>
      if c == 'e' || c == 'E' then
        let et :=
          match t with
          | '-' :: u => (true, u)
          | '+' :: u => (false, u)
          | u => (false, u)
        let ed := et.2.takeWhile Char.isDigit
        if ed.isEmpty || !(et.2.dropWhile Char.isDigit).isEmpty then JsNum.nan
        else
          scaleDec neg mb fr.1.length
            (if et.1 then -(digitsVal ed : Int) else (digitsVal ed : Int))
      else JsNum.nan

/-- The JS `Number(string)` coercion used by `isNaN(value)` and
`Number(value)` in `params.service.js`: surrounding whitespace trimmed, the
empty string coercing to `0`; decimal numerals with optional sign, fraction
and exponent; unsigned `0x`/`0b`/`0o` radix numerals; `Infinity` with
optional sign; anything else NaN.  (The double rounding a real engine would
then apply to the decimal value is not modelled.) -/
def parseNumber (s : String) : JsNum :=
  let cs := (s.data.dropWhile jsWs).reverse.dropWhile jsWs |>.reverse
  if cs.isEmpty then JsNum.dec 0 0
  else if cs.take 2 = ['0', 'x'] ∨ cs.take 2 = ['0', 'X'] then
    match radixVal hexDigitVal 16 (cs.drop 2) with
    | some n => JsNum.dec (n : Int) 0
    | none => JsNum.nan
  else if cs.take 2 = ['0', 'b'] ∨ cs.take 2 = ['0', 'B'] then
    match radixVal binDigitVal 2 (cs.drop 2) with
    | some n => JsNum.dec (n : Int) 0
    | none => JsNum.nan
  else if cs.take 2 = ['0', 'o'] ∨ cs.take 2 = ['0', 'O'] then
    match radixVal octDigitVal 8 (cs.drop 2) with
    | some n => JsNum.dec (n : Int) 0
    | none => JsNum.nan
  else
    let sr :=
      match cs with
      | '-' :: r => (true, r)
      | '+' :: r => (false, r)
      | r => (false, r)
    if sr.2 = "Infinity".data then JsNum.inf (!sr.1)
    else parseDecCore sr.1 sr.2

/-- The JS `Number(value)` coercion on the values that can reach the core. -/
def toNumber : JsVal → JsNum
  | .undef => .nan
  | .null => .dec 0 0
  | .boolean b => .dec (if b then 1 else 0) 0
  | .str s => parseNumber s
  | .num n => n

/-- The JS global `isNaN(value)` (coerce, then test for NaN). -/
def jsIsNaN (v : JsVal) : Bool :=
  toNumber v == JsNum.nan

/-- The missing-value test the source applies to every required numeric
parameter, in `validateParams` and in `toPythonValue`:
`val === null || val === undefined || val === "" || isNaN(val)`. -/
def jsMissing (v : JsVal) : Bool :=
  v == JsVal.null || v == JsVal.undef || v == JsVal.str "" || jsIsNaN v

/-! ## Decimal rendering (JS number-to-string inside template literals) -/

/-- The character of a decimal digit. -/
def digitChar (d : Nat) : Char :=
  Char.ofNat (48 + d)

/-- Digits of `n`, most significant first (fuelled; `fuel ≥ n` suffices). -/
def natDigitsAux : Nat → Nat → List Char
  | 0, _ => []
  | fuel + 1, n => if n = 0 then [] else natDigitsAux fuel (n / 10) ++ [digitChar (n % 10)]

/-- Decimal digits of `n`, most significant first, never empty. -/
def natDigits (n : Nat) : List Char :=
  if n = 0 then ['0'] else natDigitsAux (n + 1) n

/-- Strip factors of ten shared between the mantissa and the scale, so the
rendering below matches the shortest form JS prints. -/
def normDec : Int → Nat → Int × Nat
  | m, 0 => (m, 0)
  | m, e + 1 => if m % 10 == 0 then normDec (m / 10) e else (m, e + 1)

/-- Rendering of an integer. -/
def intDigitsStr (m : Int) : String :=
  if m < 0 then "-" ++ String.mk (natDigits m.natAbs) else String.mk (natDigits m.natAbs)

/-- Does the normalized decimal `m / 10 ^ e` (with `m ≠ 0`) fall in the
range JS prints as a plain decimal numeral: `1e-6 ≤ |value| < 1e21`? -/
def plainDec (m : Int) (e : Nat) : Bool :=
  m.natAbs < 10 ^ (21 + e) && 10 ^ 6 * m.natAbs ≥ 10 ^ e

/-- The plain decimal rendering of `m / 10 ^ e`. -/
def plainRender (m : Int) (e : Nat) : String :=
  if e = 0 then intDigitsStr m
  else
    let sign := if m < 0 then "-" else ""
    let ds := natDigits m.natAbs
    let padded := List.replicate (e + 1 - ds.length) '0' ++ ds
    let k := padded.length - e
    sign ++ String.mk (padded.take k) ++ "." ++ String.mk (padded.drop k)

/-- The JS exponent-notation rendering of `m / 10 ^ e` (`m ≠ 0`), e.g.
`1e+21`, `1.5e+22`, `1e-7`. -/
def expRender (m : Int) (e : Nat) : String :=
  let sign := if m < 0 then "-" else ""
  let ds := natDigits m.natAbs
  let sig := (ds.reverse.dropWhile (fun c => c == '0')).reverse
  let expo : Int := (ds.length : Int) - (e : Int) - 1
  let mant :=
    match sig with
    | [] => "0"
    | d :: rest =>
      if rest.isEmpty then String.mk [d] else String.mk [d] ++ "." ++ String.mk rest
  sign ++ mant ++ "e" ++ (if expo < 0 then "-" else "+") ++ String.mk (natDigits expo.natAbs)

/-- How a `JsNum` prints inside a JS template literal
(`` `${key} = ${value}` ``): `NaN`, signed `Infinity`, a plain decimal
numeral for magnitudes in `[1e-6, 1e21)` (and zero), and exponent notation
outside that range — per `Number::toString`.  (Shortest-round-trip digit
generation for doubles is not modelled: digits are the exact decimal's.) -/
def jsNumToString : JsNum → String
  | .nan => "NaN"
  | .inf pos => if pos then "Infinity" else "-Infinity"
  | .dec m0 e0 =>
    let p := normDec m0 e0
    if p.1 = 0 then "0"
    else if plainDec p.1 p.2 then plainRender p.1 p.2
    else expRender p.1 p.2

/-- Whether a number prints as `0` or a plain decimal numeral (used to
state the serialization claims; not part of the source). -/
def plainRange : JsNum → Bool
  | .dec m e => (normDec m e).1 == 0 || plainDec (normDec m e).1 (normDec m e).2
  | _ => false

/-- How any JS value prints inside a template literal (for the quoted
`DATA_MODE`/`start_date`/`end_date` injections). -/
def jsValToString : JsVal → String
  | .undef => "undefined"
  | .null => "null"
  | .boolean b => if b then "true" else "false"
  | .str s => s
  | .num n => jsNumToString n

/-! ## Syntactic "plain numeric literal" check (used to state claims about
the serialization, not part of the source) -/

/-- A non-empty run of decimal digits. -/
def isDigitRun (cs : List Char) : Bool :=
  !cs.isEmpty && cs.all Char.isDigit

/-- `digits` or `digits.digits` (both runs non-empty). -/
def isUnsignedNumeral (cs : List Char) : Bool :=
  let ip := cs.takeWhile Char.isDigit
  match cs.dropWhile Char.isDigit with
  | [] => !ip.isEmpty
  | c :: frac => c == '.' && (!ip.isEmpty && isDigitRun frac)

/-- A plain decimal numeric literal, optionally negated. -/
def isNumericLiteral (s : String) : Bool :=
  match s.data with
  | [] => false
  | c :: cs => if c == '-' then isUnsignedNumeral cs else isUnsignedNumeral (c :: cs)

/-! ## Line splitting and path helpers -/

/-- Split a character list at a separator character (no separator dropped at
the ends: `split '/' "a//b"` gives `["a", "", "b"]`, like JS `split`). -/
def splitCharAux (sep : Char) : List Char → List Char → List String
  | [], acc => [String.mk acc.reverse]
  | c :: rest, acc =>
    if c == sep then String.mk acc.reverse :: splitCharAux sep rest []
    else splitCharAux sep rest (c :: acc)

/-- Split a string at a separator character. -/
def splitChar (sep : Char) (s : String) : List String :=
  splitCharAux sep s.data []

/-- Join with a separator string (inverse of the splits above). -/
def joinWith (sep : String) : List String → String
  | [] => ""
  | [l] => l
  | l :: ls => l ++ sep ++ joinWith sep ls

/-- The lines of a text document. -/
def splitLines (s : String) : List String :=
  splitChar '\n' s

/-- `path.basename`: the component after the last separator. -/
def basename (p : String) : String :=
  (splitChar '/' p).getLastD p

/-- `path.dirname`: everything before the last separator. -/
def dirname (p : String) : String :=
  joinWith "/" (splitChar '/' p).dropLast

/-! ## Filesystem model

An association list from paths to file contents.  `path.resolve` only
prepends the fixed working directory, so paths are kept in their relative
spelling. -/

/-- The filesystem: a finite map from paths to contents. -/
abbrev FS := List (String × String)

/-- `fs.existsSync`. -/
def fsExists (fs : FS) (p : String) : Bool :=
  fs.any (fun e => e.1 == p)

/-- Remove every entry at a path. -/
def fsErase (fs : FS) (p : String) : FS :=
  fs.filter (fun e => e.1 != p)

/-- `fs.writeFileSync` (overwrite). -/
def fsWrite (fs : FS) (p c : String) : FS :=
  (p, c) :: fsErase fs p

/-- `fs.readFileSync`, `none` when the file does not exist. -/
def fsRead (fs : FS) (p : String) : Option String :=
  (fs.find? (fun e => e.1 == p)).map (fun e => e.2)

/-- `safeDelete` of `utils/cleanup.js`: delete if present, swallow every
error (the surrounding `try`/`catch` logs and returns). -/
def safeDelete (fs : FS) (p : String) : FS :=
  if fsExists fs p then fsErase fs p else fs

/-! ## ConfigInjector (`params.service.js`) -/

/-- Path of the shared configuration artifact (`PARAMS_PATH`). -/
def PARAMS_PATH : String := "python/params.py"

/-- Does a trailing segment consist of line-local `\s*` then `=` (then
anything)?  Used after the key has been consumed, within one line. -/
def trailMatches : List Char → Bool
  | [] => false
  | c :: cs => if c == '=' then true else if wsp c then trailMatches cs else false

/-- The line-local reading of `^<key>\s*=.*$`: the line starts with the
key, then whitespace, then `=`.  (The supported keys contain no regex
metacharacters, so the key part matches literally.) -/
def lineMatchesL (key line : List Char) : Bool :=
  key.isPrefixOf line && trailMatches (line.drop key.length)

/-- The line-local reading of `^<key>\s*=.*$` on strings. -/
def lineMatches (key line : String) : Bool :=
  lineMatchesL key.data line.data

/-- A dangling key line (character level): it starts with the key and
carries only whitespace after it.  At such a line the real regex's `\s*`
runs past the line break, so the line-local reading of the claim and the
program diverge. -/
def danglingL (key line : List Char) : Bool :=
  key.isPrefixOf line && (line.drop key.length).all wsp

/-- A dangling key line, on strings. -/
def dangling (key line : String) : Bool :=
  danglingL key.data line.data

/-- The keys `updateParams` injects. -/
def supportedKeys : List String :=
  ["DATA_MODE", "start_date", "end_date", "mcp", "mdp", "round_trip_efficiency",
   "fee", "initial_soc", "degradation_cost_per_mwh", "as_duration_hours",
   "reserve_ramp_mw_per_hour"]

/-- Try `key\s*=.*$` at one position of the content (the position itself
must be a line start, which the scanner guarantees): the key literally,
then `\s*` — which crosses line breaks, as JS `\s` matches the newline even
under the `m` flag — then `=`, then `.*$` up to the next line terminator.
Returns the matched span and the remaining content. -/
def matchAt (key cs : List Char) : Option (List Char × List Char) :=
  if key.isPrefixOf cs then
    let t := cs.drop key.length
    match t.dropWhile jsWs with
    | [] => none
    | c :: tail =>
      if c == '=' then
        some (key ++ t.takeWhile jsWs ++ '=' :: tail.takeWhile (fun x => !isLineEnd x),
              tail.dropWhile (fun x => !isLineEnd x))
      else none
  else none

/-- Scan the content for the first match of `^key\s*=.*$` (the `^` anchors
at the start of the content and after every line terminator).  Returns the
text before the match, the matched span and the text after it. -/
def scanChars (key : List Char) : Bool → List Char → Option (List Char × List Char × List Char)
  | _, [] => none
  | atStart, c :: rest =>
    match (if atStart then matchAt key (c :: rest) else none) with
    | some p => some ([], p.1, p.2)
    | none =>
      (scanChars key (isLineEnd c) rest).map (fun p => (c :: p.1, p.2.1, p.2.2))

/-- JS `GetSubstitution` for a replacement with no capture groups: `$$`,
`$&`, the before-match and after-match dollar patterns are expanded, any
other `$` is literal. -/
def expandRepl (matched before after : List Char) : List Char → List Char
  | [] => []
  | c :: rest =>
    if c == '$' then
      match rest with
      | [] => ['$']
      | d :: rest2 =>
        if d == '$' then '$' :: expandRepl matched before after rest2
        else if d == '&' then matched ++ expandRepl matched before after rest2
        else if d == Char.ofNat 96 then before ++ expandRepl matched before after rest2
        else if d == Char.ofNat 39 then after ++ expandRepl matched before after rest2
        else '$' :: d :: expandRepl matched before after rest2
    else c :: expandRepl matched before after rest

/-- `replaceValue(content, key, value)`:
`content.replace(new RegExp('^' + key + '\\\\s*=.*$', 'm'),
key + ' = ' + value)` — replace the first match of the regex by the
substitution-expanded replacement; without a match the content is returned
unchanged. -/
def replaceValue (content key value : String) : String :=
  match scanChars key.data true content.data with
  | none => content
  | some p =>
    String.mk (p.1 ++ expandRepl p.2.1 p.1 p.2.2 ((key ++ " = " ++ value).data) ++ p.2.2)

/-- The line-local reading of `replaceValue` that the round-trip claim
describes: replace the first line matching `^<key>\s*=.*$` by
`<key> = <value>`, line by line.  Compared against `replaceValue` (the
source translation) under the no-dangling-key proviso. -/
def lineReplace : List String → String → String → List String
  | [], _, _ => []
  | l :: ls, key, value =>
    if lineMatches key l then (key ++ " = " ++ value) :: ls
    else l :: lineReplace ls key value

/-- `toPythonValue(value)`: the NaN sentinel for a missing/non-numeric
value, otherwise the plain numeral `Number(value)` prints as. -/
def toPythonValue (value : JsVal) : String :=
  if jsMissing value then "float('nan')" else jsNumToString (toNumber value)

/-- The arguments `updateParams` destructures from its single object (the
source also destructures a `forecasting` field, but its only use is
commented out, so it is omitted here). -/
structure UpdateArgs where
  dataMode : String
  startDate : JsVal
  endDate : JsVal
  mcp : JsVal
  mdp : JsVal
  roundTripEfficiency : JsVal
  fee : JsVal
  initialSoc : JsVal
  degradationCost : JsVal
  asDuration : JsVal
  reserveRamp : JsVal
  deriving DecidableEq

/-- The object `validateParams` receives, as the (key, value) pairs of the
`required` key list of the source. -/
def requiredPairs (a : UpdateArgs) : List (String × JsVal) :=
  [("mcp", a.mcp), ("mdp", a.mdp), ("roundTripEfficiency", a.roundTripEfficiency),
   ("fee", a.fee), ("initialSoc", a.initialSoc), ("degradationCost", a.degradationCost),
   ("asDuration", a.asDuration)]

/-- `required.filter((key) => { ... missing ... })` of `validateParams`. -/
def missingFields (a : UpdateArgs) : List String :=
  ((requiredPairs a).filter (fun kv => jsMissing kv.2)).map (fun kv => kv.1)

/-- The message of the thrown validation `Error`. -/
def validationMessage (missing : List String) : String :=
  "Missing required parameters: " ++ joinWith ", " missing

/-- A JS exception as the controller's `catch` sees it: a thrown
`Error` object (`String(err)` prints `Error: <message>`), or a plain string
from a rejected promise (`String(err)` prints it verbatim). -/
inductive JsError where
  | errObj : String → JsError
  | thrown : String → JsError
  deriving DecidableEq

/-- `String(err)` as applied by the controller's error response. -/
def errString : JsError → String
  | .errObj m => "Error: " ++ m
  | .thrown s => s

/-- `validateParams`: throw when any required numeric parameter is missing,
naming all of them. -/
def validateParams (a : UpdateArgs) : Except JsError Unit :=
  if (missingFields a).length > 0 then
    .error (.errObj (validationMessage (missingFields a)))
  else .ok ()

/-- `rampAbsent`: the condition of the optional-reserve-ramp branch of
`updateParams` (`reserveRamp === "" || reserveRamp === null ||
reserveRamp === undefined`). -/
def rampAbsent (reserveRamp : JsVal) : Bool :=
  reserveRamp == JsVal.str "" || reserveRamp == JsVal.null || reserveRamp == JsVal.undef

/-- The value written for `reserve_ramp_mw_per_hour` by `updateParams`. -/
def rampSerialize (reserveRamp : JsVal) : String :=
  if rampAbsent reserveRamp then "None" else toPythonValue reserveRamp

/-- The in-memory rewriting `updateParams` performs on the artifact content
between its single read and its single write. -/
def rewriteParams (content : String) (a : UpdateArgs) : String :=
  let c := replaceValue content "DATA_MODE" ("\"" ++ a.dataMode ++ "\"")
  let c := replaceValue c "start_date" ("\"" ++ jsValToString a.startDate ++ "\"")
  let c := replaceValue c "end_date" ("\"" ++ jsValToString a.endDate ++ "\"")
  let c := replaceValue c "mcp" (toPythonValue a.mcp)
  let c := replaceValue c "mdp" (toPythonValue a.mdp)
  let c := replaceValue c "round_trip_efficiency" (toPythonValue a.roundTripEfficiency)
  let c := replaceValue c "fee" (toPythonValue a.fee)
  let c := replaceValue c "initial_soc" (toPythonValue a.initialSoc)
  let c := replaceValue c "degradation_cost_per_mwh" (toPythonValue a.degradationCost)
  let c := replaceValue c "as_duration_hours" (toPythonValue a.asDuration)
  let c := replaceValue c "reserve_ramp_mw_per_hour" (rampSerialize a.reserveRamp)
  c

/-- Observable effects, recorded as a trace. -/
inductive Ev where
  | execJob : String → Ev
  | mkdirEv : String → Ev
  | renamed : String → String → Ev
  | wroteParams : Ev
  | deleteAttempt : String → Ev
  deriving DecidableEq

/-- `updateParams`: validate, read the artifact, rewrite every supported key
in memory, then write the artifact back in one `writeFileSync`.  The trace
records the write. -/
def updateParamsT (a : UpdateArgs) (fs : FS) : Except JsError Unit × FS × List Ev :=
  match validateParams a with
  | .error e => (.error e, fs, [])
  | .ok _ =>
    match fsRead fs PARAMS_PATH with
    | none => (.error (.errObj ("ENOENT: no such file or directory, open " ++ PARAMS_PATH)), fs, [])
    | some content => (.ok (), fsWrite fs PARAMS_PATH (rewriteParams content a), [Ev.wroteParams])

/-! ## JobRunner (`python.service.js`) -/

/-- What `child_process.exec` hands the callback for one concrete process
run: `err` (present on non-zero exit or spawn failure, carrying the
invocation-level error message) plus the captured output streams. -/
structure ExecOutcome where
  err : Option String
  stdout : String
  stderr : String
  deriving DecidableEq

/-- `runCmd(command)`: one `exec` per call; reject with
`stderr || err.message`, resolve with the captured standard output. -/
def runCmd (command : String) (o : ExecOutcome) : Except JsError String × List Ev :=
  match o.err with
  | some msg => (.error (.thrown (if o.stderr == "" then msg else o.stderr)), [Ev.execJob command])
  | none => (.ok o.stdout, [Ev.execJob command])

/-- Modelled from the spec: one external Python job, which this repository
ships outside the orchestration source.  Its exit status and captured
streams come from `outcome`; `produces` lists the files the external
process writes on success ("expected to populate the fixed snapshot path",
"expected ... to write the fixed optimization-result output files"). -/
structure JobSpec where
  outcome : ExecOutcome
  produces : List (String × String)
  deriving DecidableEq

/-- Apply the files an external process wrote. -/
def applyWrites (fs : FS) : List (String × String) → FS
  | [] => fs
  | (p, c) :: rest => applyWrites (fsWrite fs p c) rest

/-- An awaited job call: `runCmd` plus the external process's file effects. -/
def runJob (command : String) (job : JobSpec) (fs : FS) : Except JsError String × FS × List Ev :=
  match runCmd command job.outcome with
  | (.ok out, t) => (.ok out, applyWrites fs job.produces, t)
  | (.error e, t) => (.error e, fs, t)

/-- The command of `makeSnapshot`. -/
def snapshotCmd : String := "python pull_prices.py --make-snapshot"

/-- The command of `runOptimizer`. -/
def optimizerCmd : String := "python Cooptimization.py"

/-- The command of `runForecast` (the template literal's backslash-newline
pairs are JS line continuations, leaving the flags on one line). -/
def forecastCmd : String :=
  "\npython -m scripts.run_mpc_granite   --start-index 1000 --end-index 1100 --horizon 42   --blend --clip --as-discount 0.6   --anchor-first-hour --log-components --export\n"

/-! ## RunOrchestrator (`optimize.controller.js`) -/

/-- `snapshotPath` of the controller. -/
def snapshotPath : String := "python/data/merged_prices_snapshot.csv"

/-- The three fixed optimization-result paths (`outputFiles` before any
push). -/
def baseOutputFiles : List String :=
  ["python/optimization_results/results_trades_and_reserves.csv",
   "python/optimization_results/results_battery.csv",
   "python/optimization_results/results_pnl_by_product.csv"]

/-- `forecastOutput` of the controller. -/
def forecastOutput : String := "python/optimization_results/mpc_forecast_results.csv"

/-- The battery/economics parameters of `body.config` (after the JSON
decoding the controller applies when the substructure arrived as text). -/
structure ConfigParams where
  mcp : JsVal
  mdp : JsVal
  roundTripEfficiency : JsVal
  fee : JsVal
  initialSoc : JsVal
  degradationCost : JsVal
  asDuration : JsVal
  reserveRamp : JsVal
  deriving DecidableEq

/-- The parsed request the HTTP layer hands the controller: the uploaded
temp path when `req.files.merged` holds a file, and the body fields the
controller reads. -/
structure Req where
  uploaded : Option String
  forecasting : JsVal
  startDate : JsVal
  endDate : JsVal
  config : ConfigParams
  deriving DecidableEq

/-- The three external jobs of one deployment, as the orchestrator sees
them. -/
structure Env where
  snapshotJob : JobSpec
  forecastJob : JobSpec
  optimizerJob : JobSpec
  deriving DecidableEq

/-- The response payload the controller sends: `res.json({message, outputs})`
on success, `res.status(500).json({error})` on failure. -/
inductive Payload where
  | success : String → List String → Payload
  | failure : String → Payload
  deriving DecidableEq

/-- `body.forecasting === "true" || body.forecasting === true`. -/
def forecastFlag (v : JsVal) : Bool :=
  v == JsVal.str "true" || v == JsVal.boolean true

/-- The object the controller passes to `updateParams`:
`{dataMode: hasCSV ? "snapshot" : "live", startDate, endDate, ...config}`. -/
def argsOf (req : Req) : UpdateArgs :=
  { dataMode := if req.uploaded.isSome then "snapshot" else "live"
    startDate := req.startDate
    endDate := req.endDate
    mcp := req.config.mcp
    mdp := req.config.mdp
    roundTripEfficiency := req.config.roundTripEfficiency
    fee := req.config.fee
    initialSoc := req.config.initialSoc
    degradationCost := req.config.degradationCost
    asDuration := req.config.asDuration
    reserveRamp := req.config.reserveRamp }

/-- `fs.renameSync(src, dst)`: move, throwing when the source is absent.
The trace records the move attempt. -/
def renameSyncT (fs : FS) (src dst : String) : Except JsError FS × List Ev :=
  match fsRead fs src with
  | some content => (.ok (fsWrite (fsErase fs src) dst content), [Ev.renamed src dst])
  | none =>
    (.error (.errObj ("ENOENT: no such file or directory, rename " ++ src)), [Ev.renamed src dst])

/-- Step 1 of the controller: move the uploaded CSV onto the snapshot path
(after `mkdirSync` of its directory), or run the `makeSnapshot` job. -/
def ingest (req : Req) (env : Env) (fs : FS) : Except JsError Unit × FS × List Ev :=
  match req.uploaded with
  | some up =>
    match renameSyncT fs up snapshotPath with
    | (.ok fs', t) => (.ok (), fs', Ev.mkdirEv (dirname snapshotPath) :: t)
    | (.error e, t) => (.error e, fs, Ev.mkdirEv (dirname snapshotPath) :: t)
  | none =>
    match runJob snapshotCmd env.snapshotJob fs with
    | (r, fs', t) => (r.map (fun _ => ()), fs', t)

/-- Steps 2–3 of the controller: the optional forecast (pushing
`forecastOutput` onto `outputFiles` on its success) and then the
optimization job.  Returns the run result together with the `outputFiles`
list as it stands when the `finally` block runs. -/
def runTail (req : Req) (env : Env) (fs : FS) :
    Except JsError Unit × List String × FS × List Ev :=
  if forecastFlag req.forecasting then
    match runJob forecastCmd env.forecastJob fs with
    | (.error e, fs3, t3) => (.error e, baseOutputFiles, fs3, t3)
    | (.ok _, fs3, t3) =>
      match runJob optimizerCmd env.optimizerJob fs3 with
      | (r, fs4, t4) =>
        (r.map (fun _ => ()), baseOutputFiles ++ [forecastOutput], fs4, t3 ++ t4)
  else
    match runJob optimizerCmd env.optimizerJob fs with
    | (r, fs3, t3) => (r.map (fun _ => ()), baseOutputFiles, fs3, t3)

/-- The `try` block of `runOptimization`: config injection, ingestion,
forecast, optimization.  The second component is the `outputFiles` list as
mutated so far — the run's manifest. -/
def runBody (req : Req) (env : Env) (fs : FS) :
    Except JsError Unit × List String × FS × List Ev :=
  match updateParamsT (argsOf req) fs with
  | (.error e, fs1, t1) => (.error e, baseOutputFiles, fs1, t1)
  | (.ok _, fs1, t1) =>
    match ingest req env fs1 with
    | (.error e, fs2, t2) => (.error e, baseOutputFiles, fs2, t1 ++ t2)
    | (.ok _, fs2, t2) =>
      match runTail req env fs2 with
      | (r, files, fs3, t3) => (r, files, fs3, t1 ++ t2 ++ t3)

/-- The paths the `finally` block hands to `safeDelete`, in order: every
uploaded temp file, the snapshot path, every path in `outputFiles`. -/
def cleanupPaths (req : Req) (outputFiles : List String) : List String :=
  (match req.uploaded with | some p => [p] | none => []) ++ snapshotPath :: outputFiles

/-- The `finally` block: best-effort deletion of every tracked path. -/
def cleanup (req : Req) (outputFiles : List String) (fs : FS) : FS × List Ev :=
  ((cleanupPaths req outputFiles).foldl safeDelete fs,
   (cleanupPaths req outputFiles).map Ev.deleteAttempt)

/-- `runOptimization(req, res)`: the whole orchestration run, producing the
response payload, the final filesystem, and the event trace. -/
def runOptimization (req : Req) (env : Env) (fs : FS) : Payload × FS × List Ev :=
  let b := runBody req env fs
  let payload :=
    match b.1 with
    | .ok _ => Payload.success "Optimization completed" (b.2.1.map basename)
    | .error e => Payload.failure (errString e)
  let c := cleanup req b.2.1 b.2.2.1
  (payload, c.1, b.2.2.2 ++ c.2)

/-- The run's response payload. -/
def runPayload (req : Req) (env : Env) (fs : FS) : Payload :=
  (runOptimization req env fs).1

/-- The filesystem after the run (cleanup included). -/
def runFS (req : Req) (env : Env) (fs : FS) : FS :=
  (runOptimization req env fs).2.1

/-- The run's event trace. -/
def runTrace (req : Req) (env : Env) (fs : FS) : List Ev :=
  (runOptimization req env fs).2.2

/-- The run's output manifest: `outputFiles` as it stands at run end. -/
def runManifest (req : Req) (env : Env) (fs : FS) : List String :=
  (runBody req env fs).2.1

/-! ## Concrete fixtures (for witnesses and counterexamples) -/

/-- A params.py artifact with one assignment line per supported key. -/
def paramsFileContent : String :=
  "DATA_MODE = \"live\"\nstart_date = \"2024-01-01\"\nend_date = \"2024-02-01\"\nmcp = 10.0\nmdp = 10.0\nround_trip_efficiency = 0.85\nfee = 1.0\ninitial_soc = 5.0\ndegradation_cost_per_mwh = 5.0\nas_duration_hours = 1.0\nreserve_ramp_mw_per_hour = None\nRESULTS_DIR = \"optimization_results\""

/-- The numbers of the spec's concrete scenario. -/
def goodConfig : ConfigParams :=
  { mcp := JsVal.num (JsNum.dec 10 0)
    mdp := JsVal.num (JsNum.dec 10 0)
    roundTripEfficiency := JsVal.num (JsNum.dec 8 1)
    fee := JsVal.num (JsNum.dec 1 0)
    initialSoc := JsVal.num (JsNum.dec 5 0)
    degradationCost := JsVal.num (JsNum.dec 5 0)
    asDuration := JsVal.num (JsNum.dec 1 0)
    reserveRamp := JsVal.undef }

/-- The spec's concrete scenario request: uploaded data, forecasting off. -/
def scenarioReq : Req :=
  { uploaded := some "temp/upload01"
    forecasting := JsVal.boolean false
    startDate := JsVal.str "2024-01-01"
    endDate := JsVal.str "2024-01-31"
    config := goodConfig }

/-- An environment in which every external job succeeds and writes its
expected files. -/
def happyEnv : Env :=
  { snapshotJob := { outcome := { err := none, stdout := "snapshot done", stderr := "" },
                     produces := [(snapshotPath, "ts,price\n1,10\n")] }
    forecastJob := { outcome := { err := none, stdout := "forecast done", stderr := "" },
                     produces := [(forecastOutput, "ts,forecast\n1,11\n")] }
    optimizerJob := { outcome := { err := none, stdout := "optimized", stderr := "" },
                      produces :=
                        [("python/optimization_results/results_trades_and_reserves.csv", "t"),
                         ("python/optimization_results/results_battery.csv", "b"),
                         ("python/optimization_results/results_pnl_by_product.csv", "p")] } }

/-- The disk before the scenario run: the artifact and the uploaded file. -/
def scenarioFS : FS :=
  [(PARAMS_PATH, paramsFileContent), ("temp/upload01", "ts,price\n1,9\n")]

/-- A live-data request (nothing uploaded), dates present. -/
def liveReq : Req :=
  { uploaded := none
    forecasting := JsVal.boolean false
    startDate := JsVal.str "2024-01-01"
    endDate := JsVal.str "2024-01-31"
    config := goodConfig }

/-- A live-data request with both dates absent. -/
def liveReqNoDates : Req :=
  { uploaded := none
    forecasting := JsVal.boolean false
    startDate := JsVal.undef
    endDate := JsVal.undef
    config := goodConfig }

/-- An uploaded-data request with both dates absent. -/
def uploadReqNoDates : Req :=
  { uploaded := some "temp/upload01"
    forecasting := JsVal.boolean false
    startDate := JsVal.undef
    endDate := JsVal.undef
    config := goodConfig }

/-- An uploaded-data request whose `mcp` is absent (validation must fail). -/
def uploadReqNoMcp : Req :=
  { uploaded := some "temp/upload01"
    forecasting := JsVal.boolean false
    startDate := JsVal.str "2024-01-01"
    endDate := JsVal.str "2024-01-31"
    config := { goodConfig with mcp := JsVal.undef } }

/-- A live-data request whose `mcp` is absent (validation must fail). -/
def liveReqNoMcp : Req :=
  { uploaded := none
    forecasting := JsVal.boolean false
    startDate := JsVal.str "2024-01-01"
    endDate := JsVal.str "2024-01-31"
    config := { goodConfig with mcp := JsVal.undef } }

/-- The disk before a live-data run: just the artifact. -/
def liveFS : FS :=
  [(PARAMS_PATH, paramsFileContent)]

/-! ## Filesystem lemmas -/

theorem fsExists_fsErase (fs : FS) (p : String) : fsExists (fsErase fs p) p = false := by
  rw [Bool.eq_false_iff]
  intro h
  simp only [fsExists, fsErase, List.any_eq_true] at h
  obtain ⟨e, he, hp⟩ := h
  have hne := List.of_mem_filter he
  rw [beq_iff_eq] at hp
  simp [bne, hp] at hne

theorem fsExists_of_fsErase (fs : FS) (p q : String)
    (h : fsExists (fsErase fs q) p = true) : fsExists fs p = true := by
  simp only [fsExists, fsErase, List.any_eq_true] at h ⊢
  obtain ⟨e, he, hp⟩ := h
  exact ⟨e, List.mem_of_mem_filter he, hp⟩

theorem safeDelete_nonexist (fs : FS) (p : String) (h : fsExists fs p = false) :
    safeDelete fs p = fs := by
  simp [safeDelete, h]

theorem fsExists_safeDelete_self (fs : FS) (p : String) :
    fsExists (safeDelete fs p) p = false := by
  unfold safeDelete
  by_cases h : fsExists fs p
  · simpa [h] using fsExists_fsErase fs p
  · simp [h]

theorem fsExists_safeDelete_false (fs : FS) (p q : String) (h : fsExists fs p = false) :
    fsExists (safeDelete fs q) p = false := by
  unfold safeDelete
  by_cases hq : fsExists fs q
  · simp only [hq, if_true]
    rw [Bool.eq_false_iff]
    intro hc
    rw [fsExists_of_fsErase fs p q hc] at h
    cases h
  · simpa [hq] using h

theorem foldl_safeDelete_false (ps : List String) (p : String) :
    ∀ fs : FS, fsExists fs p = false → fsExists (ps.foldl safeDelete fs) p = false := by
  induction ps with
  | nil => intro fs h; simpa using h
  | cons a rest ih =>
    intro fs h
    simp only [List.foldl_cons]
    exact ih _ (fsExists_safeDelete_false fs p a h)

theorem foldl_safeDelete_mem (ps : List String) (p : String) (hp : p ∈ ps) :
    ∀ fs : FS, fsExists (ps.foldl safeDelete fs) p = false := by
  induction ps with
  | nil => cases hp
  | cons a rest ih =>
    intro fs
    simp only [List.foldl_cons]
    rcases List.mem_cons.mp hp with rfl | hmem
    · exact foldl_safeDelete_false rest p _ (fsExists_safeDelete_self fs p)
    · exact ih hmem _

theorem foldl_safeDelete_clean (ps : List String) (fs : FS)
    (h : ∀ p ∈ ps, fsExists fs p = false) : ps.foldl safeDelete fs = fs := by
  induction ps with
  | nil => rfl
  | cons a rest ih =>
    have ha := safeDelete_nonexist fs a (h a (List.mem_cons_self a rest))
    simp only [List.foldl_cons, ha]
    exact ih (fun p hp => h p (List.mem_cons_of_mem a hp))

theorem foldl_safeDelete_idem (ps : List String) (fs : FS) :
    ps.foldl safeDelete (ps.foldl safeDelete fs) = ps.foldl safeDelete fs :=
  foldl_safeDelete_clean ps _ (fun p hp => foldl_safeDelete_mem ps p hp fs)

/-! ## Stage characterization lemmas -/

theorem updateParamsT_validation_error (a : UpdateArgs) (fs : FS)
    (h : missingFields a ≠ []) :
    updateParamsT a fs =
      (.error (.errObj (validationMessage (missingFields a))), fs, []) := by
  have hl : 0 < (missingFields a).length := List.length_pos.mpr h
  simp [updateParamsT, validateParams, hl]

theorem updateParamsT_ok (a : UpdateArgs) (fs : FS) (c : String)
    (hv : missingFields a = []) (hc : fsRead fs PARAMS_PATH = some c) :
    updateParamsT a fs =
      (.ok (), fsWrite fs PARAMS_PATH (rewriteParams c a), [Ev.wroteParams]) := by
  simp [updateParamsT, validateParams, hv, hc]

theorem updateParamsT_read_error (a : UpdateArgs) (fs : FS)
    (hv : missingFields a = []) (hc : fsRead fs PARAMS_PATH = none) :
    updateParamsT a fs =
      (.error (.errObj ("ENOENT: no such file or directory, open " ++ PARAMS_PATH)), fs, []) := by
  simp [updateParamsT, validateParams, hv, hc]

theorem updateParamsT_cases (a : UpdateArgs) (fs : FS) :
    (∃ e, updateParamsT a fs = (.error e, fs, [])) ∨
    (∃ c, fsRead fs PARAMS_PATH = some c ∧ missingFields a = [] ∧
      updateParamsT a fs =
        (.ok (), fsWrite fs PARAMS_PATH (rewriteParams c a), [Ev.wroteParams])) := by
  by_cases hv : missingFields a = []
  · cases hc : fsRead fs PARAMS_PATH with
    | none => exact Or.inl ⟨_, updateParamsT_read_error a fs hv hc⟩
    | some c => exact Or.inr ⟨c, rfl, hv, updateParamsT_ok a fs c hv hc⟩
  · exact Or.inl ⟨_, updateParamsT_validation_error a fs hv⟩

theorem runCmd_trace (c : String) (o : ExecOutcome) : (runCmd c o).2 = [Ev.execJob c] := by
  cases h : o.err <;> simp [runCmd, h]

theorem runJob_ok (c : String) (j : JobSpec) (fs : FS) (h : j.outcome.err = none) :
    runJob c j fs = (.ok j.outcome.stdout, applyWrites fs j.produces, [Ev.execJob c]) := by
  simp [runJob, runCmd, h]

theorem runJob_err (c : String) (j : JobSpec) (fs : FS) (msg : String)
    (h : j.outcome.err = some msg) :
    runJob c j fs =
      (.error (.thrown (if j.outcome.stderr == "" then msg else j.outcome.stderr)),
       fs, [Ev.execJob c]) := by
  simp [runJob, runCmd, h]

theorem runJob_trace (c : String) (j : JobSpec) (fs : FS) :
    (runJob c j fs).2.2 = [Ev.execJob c] := by
  cases h : j.outcome.err with
  | none => simp [runJob_ok c j fs h]
  | some msg => simp [runJob_err c j fs msg h]

theorem ingest_uploaded_ok (req : Req) (env : Env) (fs : FS) (up c : String)
    (hu : req.uploaded = some up) (hc : fsRead fs up = some c) :
    ingest req env fs = (.ok (), fsWrite (fsErase fs up) snapshotPath c,
      [Ev.mkdirEv (dirname snapshotPath), Ev.renamed up snapshotPath]) := by
  simp [ingest, hu, renameSyncT, hc]

theorem ingest_uploaded_err (req : Req) (env : Env) (fs : FS) (up : String)
    (hu : req.uploaded = some up) (hc : fsRead fs up = none) :
    ingest req env fs =
      (.error (.errObj ("ENOENT: no such file or directory, rename " ++ up)), fs,
       [Ev.mkdirEv (dirname snapshotPath), Ev.renamed up snapshotPath]) := by
  simp [ingest, hu, renameSyncT, hc]

theorem ingest_live_ok (req : Req) (env : Env) (fs : FS)
    (hu : req.uploaded = none) (he : env.snapshotJob.outcome.err = none) :
    ingest req env fs =
      (.ok (), applyWrites fs env.snapshotJob.produces, [Ev.execJob snapshotCmd]) := by
  simp [ingest, hu, runJob_ok _ _ _ he, Except.map]

theorem ingest_live_err (req : Req) (env : Env) (fs : FS) (msg : String)
    (hu : req.uploaded = none) (he : env.snapshotJob.outcome.err = some msg) :
    ingest req env fs =
      (.error (.thrown (if env.snapshotJob.outcome.stderr == "" then msg
                        else env.snapshotJob.outcome.stderr)),
       fs, [Ev.execJob snapshotCmd]) := by
  simp [ingest, hu, runJob_err _ _ _ _ he, Except.map]

theorem runTail_noforecast_ok (req : Req) (env : Env) (fs : FS)
    (hf : forecastFlag req.forecasting = false) (ho : env.optimizerJob.outcome.err = none) :
    runTail req env fs =
      (.ok (), baseOutputFiles, applyWrites fs env.optimizerJob.produces,
       [Ev.execJob optimizerCmd]) := by
  simp [runTail, hf, runJob_ok _ _ _ ho, Except.map]

theorem runTail_noforecast_err (req : Req) (env : Env) (fs : FS) (msg : String)
    (hf : forecastFlag req.forecasting = false) (ho : env.optimizerJob.outcome.err = some msg) :
    runTail req env fs =
      (.error (.thrown (if env.optimizerJob.outcome.stderr == "" then msg
                        else env.optimizerJob.outcome.stderr)),
       baseOutputFiles, fs, [Ev.execJob optimizerCmd]) := by
  simp [runTail, hf, runJob_err _ _ _ _ ho, Except.map]

theorem runTail_forecast_err (req : Req) (env : Env) (fs : FS) (msg : String)
    (hf : forecastFlag req.forecasting = true) (hfc : env.forecastJob.outcome.err = some msg) :
    runTail req env fs =
      (.error (.thrown (if env.forecastJob.outcome.stderr == "" then msg
                        else env.forecastJob.outcome.stderr)),
       baseOutputFiles, fs, [Ev.execJob forecastCmd]) := by
  simp [runTail, hf, runJob_err _ _ _ _ hfc]

theorem runTail_forecast_ok_ok (req : Req) (env : Env) (fs : FS)
    (hf : forecastFlag req.forecasting = true)
    (hfc : env.forecastJob.outcome.err = none) (ho : env.optimizerJob.outcome.err = none) :
    runTail req env fs =
      (.ok (), baseOutputFiles ++ [forecastOutput],
       applyWrites (applyWrites fs env.forecastJob.produces) env.optimizerJob.produces,
       [Ev.execJob forecastCmd, Ev.execJob optimizerCmd]) := by
  simp [runTail, hf, runJob_ok _ _ _ hfc, runJob_ok _ _ _ ho, Except.map]

theorem runTail_forecast_ok_err (req : Req) (env : Env) (fs : FS) (msg : String)
    (hf : forecastFlag req.forecasting = true)
    (hfc : env.forecastJob.outcome.err = none) (ho : env.optimizerJob.outcome.err = some msg) :
    runTail req env fs =
      (.error (.thrown (if env.optimizerJob.outcome.stderr == "" then msg
                        else env.optimizerJob.outcome.stderr)),
       baseOutputFiles ++ [forecastOutput], applyWrites fs env.forecastJob.produces,
       [Ev.execJob forecastCmd, Ev.execJob optimizerCmd]) := by
  simp [runTail, hf, runJob_ok _ _ _ hfc, runJob_err _ _ _ _ ho, Except.map]

theorem runTail_trace_events (req : Req) (env : Env) (fs : FS) :
    ∀ e ∈ (runTail req env fs).2.2.2,
      e = Ev.execJob forecastCmd ∨ e = Ev.execJob optimizerCmd := by
  intro e he
  cases hf : forecastFlag req.forecasting with
  | false =>
    cases ho : env.optimizerJob.outcome.err with
    | none => rw [runTail_noforecast_ok req env fs hf ho] at he; simp at he; simp [he]
    | some msg => rw [runTail_noforecast_err req env fs msg hf ho] at he; simp at he; simp [he]
  | true =>
    cases hfc : env.forecastJob.outcome.err with
    | some msg => rw [runTail_forecast_err req env fs msg hf hfc] at he; simp at he; simp [he]
    | none =>
      cases ho : env.optimizerJob.outcome.err with
      | none =>
        rw [runTail_forecast_ok_ok req env fs hf hfc ho] at he
        simp at he; rcases he with h | h <;> simp [h]
      | some msg =>
        rw [runTail_forecast_ok_err req env fs msg hf hfc ho] at he
        simp at he; rcases he with h | h <;> simp [h]

theorem ingest_trace_events (req : Req) (env : Env) (fs : FS) :
    ∀ e ∈ (ingest req env fs).2.2,
      (∃ up, req.uploaded = some up ∧
        (e = Ev.mkdirEv (dirname snapshotPath) ∨ e = Ev.renamed up snapshotPath)) ∨
      (req.uploaded = none ∧ e = Ev.execJob snapshotCmd) := by
  intro e he
  cases hu : req.uploaded with
  | some up =>
    cases hc : fsRead fs up with
    | some c =>
      rw [ingest_uploaded_ok req env fs up c hu hc] at he
      simp at he; rcases he with h | h
      · exact Or.inl ⟨up, rfl, Or.inl h⟩
      · exact Or.inl ⟨up, rfl, Or.inr h⟩
    | none =>
      rw [ingest_uploaded_err req env fs up hu hc] at he
      simp at he; rcases he with h | h
      · exact Or.inl ⟨up, rfl, Or.inl h⟩
      · exact Or.inl ⟨up, rfl, Or.inr h⟩
  | none =>
    cases hsn : env.snapshotJob.outcome.err with
    | none =>
      rw [ingest_live_ok req env fs hu hsn] at he
      simp at he; exact Or.inr ⟨rfl, he⟩
    | some msg =>
      rw [ingest_live_err req env fs msg hu hsn] at he
      simp at he; exact Or.inr ⟨rfl, he⟩

theorem runBody_trace_events (req : Req) (env : Env) (fs : FS) :
    ∀ e ∈ (runBody req env fs).2.2.2,
      e = Ev.wroteParams ∨
      (∃ up, req.uploaded = some up ∧
        (e = Ev.mkdirEv (dirname snapshotPath) ∨ e = Ev.renamed up snapshotPath)) ∨
      (req.uploaded = none ∧ e = Ev.execJob snapshotCmd) ∨
      e = Ev.execJob forecastCmd ∨ e = Ev.execJob optimizerCmd := by
  intro e he
  rcases updateParamsT_cases (argsOf req) fs with ⟨err, hup⟩ | ⟨c, hrd, hv, hup⟩
  · rw [runBody, hup] at he
    simp at he
  · rw [runBody, hup] at he
    simp only [] at he
    rcases hing : ingest req env (fsWrite fs PARAMS_PATH (rewriteParams c (argsOf req)))
      with ⟨ri, fs2, t2⟩
    rw [hing] at he
    have hingt : t2 = (ingest req env (fsWrite fs PARAMS_PATH (rewriteParams c (argsOf req)))).2.2 := by
      rw [hing]
    cases ri with
    | error e2 =>
      simp at he
      rcases he with h | h
      · exact Or.inl h
      · rcases ingest_trace_events req env _ e (hingt ▸ h) with h2 | h2
        · exact Or.inr (Or.inl h2)
        · exact Or.inr (Or.inr (Or.inl h2))
    | ok u =>
      simp at he
      rcases he with h | h | h
      · exact Or.inl h
      · rcases ingest_trace_events req env _ e (hingt ▸ h) with h2 | h2
        · exact Or.inr (Or.inl h2)
        · exact Or.inr (Or.inr (Or.inl h2))
      · rcases runTail_trace_events req env fs2 e h with h2 | h2
        · exact Or.inr (Or.inr (Or.inr (Or.inl h2)))
        · exact Or.inr (Or.inr (Or.inr (Or.inr h2)))

theorem runTrace_decomp (req : Req) (env : Env) (fs : FS) :
    runTrace req env fs = (runBody req env fs).2.2.2 ++
      (cleanupPaths req (runManifest req env fs)).map Ev.deleteAttempt := rfl

theorem runFS_decomp (req : Req) (env : Env) (fs : FS) :
    runFS req env fs =
      (cleanupPaths req (runManifest req env fs)).foldl safeDelete
        (runBody req env fs).2.2.1 := rfl

/-! ## The claims -/

/-- Claim C1: every run — success or failure at any step — executes cleanup:
the trace holds a deletion attempt for the uploaded temp file (if any), for
the snapshot path and for every path of the run's manifest; and cleanup
never errors (it is a total function here because `safeDelete` swallows
every failure), re-running it on the already-cleaned state being a no-op. -/
theorem run_cleanup_always (req : Req) (env : Env) (fs : FS) :
    (∀ up, req.uploaded = some up → Ev.deleteAttempt up ∈ runTrace req env fs) ∧
    Ev.deleteAttempt snapshotPath ∈ runTrace req env fs ∧
    (∀ p ∈ runManifest req env fs, Ev.deleteAttempt p ∈ runTrace req env fs) ∧
    cleanup req (runManifest req env fs) (runFS req env fs) =
      (runFS req env fs, (cleanupPaths req (runManifest req env fs)).map Ev.deleteAttempt) := by
  refine ⟨?_, ?_, ?_, ?_⟩
  · intro up hu
    rw [runTrace_decomp]
    refine List.mem_append_right _ (List.mem_map_of_mem _ ?_)
    simp [cleanupPaths, hu]
  · rw [runTrace_decomp]
    refine List.mem_append_right _ (List.mem_map_of_mem _ ?_)
    simp [cleanupPaths]
  · intro p hp
    rw [runTrace_decomp]
    refine List.mem_append_right _ (List.mem_map_of_mem _ ?_)
    simp [cleanupPaths, hp]
  · simp only [cleanup, runFS_decomp, foldl_safeDelete_idem]

/-- Witness for `run_cleanup_always` at the spec's concrete scenario. -/
theorem run_cleanup_always_witness :
    Ev.deleteAttempt "temp/upload01" ∈ runTrace scenarioReq happyEnv scenarioFS ∧
    Ev.deleteAttempt snapshotPath ∈ runTrace scenarioReq happyEnv scenarioFS ∧
    Ev.deleteAttempt "python/optimization_results/results_battery.csv" ∈
      runTrace scenarioReq happyEnv scenarioFS :=
  ⟨(run_cleanup_always scenarioReq happyEnv scenarioFS).1 "temp/upload01" (by decide),
   (run_cleanup_always scenarioReq happyEnv scenarioFS).2.1,
   (run_cleanup_always scenarioReq happyEnv scenarioFS).2.2.1 _ (by decide)⟩

/-- Claim C2: when any of the seven required numeric fields is missing
(null, absent, empty or not a number), the run fails with the validation
error, its message names exactly the missing fields (all of them), and no
external job is invoked. -/
theorem validation_failure_behavior (req : Req) (env : Env) (fs : FS)
    (h : missingFields (argsOf req) ≠ []) :
    runPayload req env fs =
      Payload.failure ("Error: " ++ validationMessage (missingFields (argsOf req))) ∧
    (∀ c, Ev.execJob c ∉ runTrace req env fs) ∧
    (∀ k v, (k, v) ∈ requiredPairs (argsOf req) → jsMissing v = true →
      k ∈ missingFields (argsOf req)) ∧
    (∀ k ∈ missingFields (argsOf req),
      ∃ v, (k, v) ∈ requiredPairs (argsOf req) ∧ jsMissing v = true) := by
  have hup := updateParamsT_validation_error (argsOf req) fs h
  have hbody : runBody req env fs =
      (.error (.errObj (validationMessage (missingFields (argsOf req)))),
       baseOutputFiles, fs, []) := by
    rw [runBody, hup]
  refine ⟨?_, ?_, ?_, ?_⟩
  · simp [runPayload, runOptimization, hbody, errString]
  · intro c hc
    rw [runTrace_decomp] at hc
    simp only [runManifest, hbody] at hc
    simp at hc
  · intro k v hkv hmiss
    simp only [missingFields, List.mem_map]
    exact ⟨(k, v), List.mem_filter.mpr ⟨hkv, hmiss⟩, rfl⟩
  · intro k hk
    simp only [missingFields, List.mem_map] at hk
    obtain ⟨kv, hkvmem, hfst⟩ := hk
    have hm := List.mem_filter.mp hkvmem
    refine ⟨kv.2, ?_, hm.2⟩
    rw [← hfst, Prod.mk.eta]
    exact hm.1

/-- Witness for `validation_failure_behavior`: a request whose `mcp` is
absent fails with a message naming it, without any job invocation. -/
theorem validation_failure_witness :
    runPayload liveReqNoMcp happyEnv liveFS =
      Payload.failure ("Error: " ++ validationMessage (missingFields (argsOf liveReqNoMcp))) ∧
    Ev.execJob snapshotCmd ∉ runTrace liveReqNoMcp happyEnv liveFS :=
  ⟨(validation_failure_behavior liveReqNoMcp happyEnv liveFS (by decide)).1,
   (validation_failure_behavior liveReqNoMcp happyEnv liveFS (by decide)).2.1 snapshotCmd⟩

/-- Counterexample to claim C5 as stated: a run with `hasUploadedData = false`
on which the "make snapshot" job is never invoked, and a run with
`hasUploadedData = true` on which the rename step is never performed — in
both, validation fails first, so neither ingestion branch runs.  (C5 claims
each branch's action occurs on *every* run of its mode.) -/
theorem ingestion_branches_counterexample :
    (liveReqNoMcp.uploaded = none ∧
      Ev.execJob snapshotCmd ∉ runTrace liveReqNoMcp happyEnv liveFS) ∧
    (uploadReqNoMcp.uploaded = some "temp/upload01" ∧
      Ev.renamed "temp/upload01" snapshotPath ∉
        runTrace uploadReqNoMcp happyEnv scenarioFS) :=
  ⟨⟨rfl, by decide⟩, ⟨rfl, by decide⟩⟩

/-- Claim C5, amended: the two ingestion branches are mutually exclusive —
an uploaded run never invokes the make-snapshot job and a live-data run
never invokes the rename step; whenever the run reaches ingestion (config
injection succeeded), its own branch's action happens: the rename onto the
snapshot path for uploaded data, the make-snapshot job otherwise; and a run
whose config injection fails (validation error or artifact read failure)
performs no rename and invokes no external job at all. -/
theorem ingestion_branches (req : Req) (env : Env) (fs : FS) :
    (req.uploaded.isSome = true → Ev.execJob snapshotCmd ∉ runTrace req env fs) ∧
    (req.uploaded = none → ∀ s d, Ev.renamed s d ∉ runTrace req env fs) ∧
    (∀ up, req.uploaded = some up → (updateParamsT (argsOf req) fs).1 = .ok () →
      Ev.renamed up snapshotPath ∈ runTrace req env fs) ∧
    (req.uploaded = none → (updateParamsT (argsOf req) fs).1 = .ok () →
      Ev.execJob snapshotCmd ∈ runTrace req env fs) ∧
    (∀ e, (updateParamsT (argsOf req) fs).1 = .error e →
      (∀ s d, Ev.renamed s d ∉ runTrace req env fs) ∧
      (∀ c, Ev.execJob c ∉ runTrace req env fs)) := by
  have hne1 : snapshotCmd ≠ forecastCmd := by decide
  have hne2 : snapshotCmd ≠ optimizerCmd := by decide
  refine ⟨?_, ?_, ?_, ?_, ?_⟩
  · intro hu hc
    rw [runTrace_decomp] at hc
    rcases List.mem_append.mp hc with hcl | hcr
    · rcases runBody_trace_events req env fs _ hcl with h | ⟨up, _, h | h⟩ | ⟨hnone, h⟩ | h | h
      · cases h
      · cases h
      · cases h
      · rw [hnone] at hu; cases hu
      · exact hne1 (by injection h)
      · exact hne2 (by injection h)
    · simp at hcr
  · intro hu s d hc
    rw [runTrace_decomp] at hc
    rcases List.mem_append.mp hc with hcl | hcr
    · rcases runBody_trace_events req env fs _ hcl with h | ⟨up, hup, h | h⟩ | ⟨_, h⟩ | h | h
      · cases h
      · cases h
      · rw [hu] at hup; cases hup
      · cases h
      · cases h
      · cases h
    · simp at hcr
  · intro up hu hok
    rcases updateParamsT_cases (argsOf req) fs with ⟨e, hup2⟩ | ⟨c, hrd, hv, hup2⟩
    · rw [hup2] at hok; cases hok
    · rw [runTrace_decomp]
      refine List.mem_append_left _ ?_
      simp only [runBody, hup2]
      cases hc : fsRead (fsWrite fs PARAMS_PATH (rewriteParams c (argsOf req))) up with
      | some cu => simp only [ingest_uploaded_ok req env _ up cu hu hc]; simp
      | none => simp only [ingest_uploaded_err req env _ up hu hc]; simp
  · intro hu hok
    rcases updateParamsT_cases (argsOf req) fs with ⟨e, hup2⟩ | ⟨c, hrd, hv, hup2⟩
    · rw [hup2] at hok; cases hok
    · rw [runTrace_decomp]
      refine List.mem_append_left _ ?_
      simp only [runBody, hup2]
      cases hsn : env.snapshotJob.outcome.err with
      | none => simp only [ingest_live_ok req env _ hu hsn]; simp
      | some msg => simp only [ingest_live_err req env _ msg hu hsn]; simp
  · intro e herr
    rcases updateParamsT_cases (argsOf req) fs with ⟨e2, hup2⟩ | ⟨c, hrd, hv, hup2⟩
    · have hbody : runBody req env fs = (.error e2, baseOutputFiles, fs, []) := by
        simp only [runBody, hup2]
      constructor
      · intro s d hc
        rw [runTrace_decomp, hbody] at hc
        rcases List.mem_append.mp hc with hcl | hcr
        · cases hcl
        · simp at hcr
      · intro cj hc
        rw [runTrace_decomp, hbody] at hc
        rcases List.mem_append.mp hc with hcl | hcr
        · cases hcl
        · simp at hcr
    · rw [hup2] at herr
      cases herr

/-- Witness for `ingestion_branches` on both branches and on a failed
injection. -/
theorem ingestion_branches_witness :
    Ev.execJob snapshotCmd ∉ runTrace scenarioReq happyEnv scenarioFS ∧
    Ev.renamed "temp/upload01" snapshotPath ∈ runTrace scenarioReq happyEnv scenarioFS ∧
    Ev.execJob snapshotCmd ∈ runTrace liveReq happyEnv liveFS ∧
    Ev.execJob snapshotCmd ∉ runTrace uploadReqNoMcp happyEnv scenarioFS :=
  ⟨(ingestion_branches scenarioReq happyEnv scenarioFS).1 rfl,
   (ingestion_branches scenarioReq happyEnv scenarioFS).2.2.1 "temp/upload01" rfl (by rfl),
   (ingestion_branches liveReq happyEnv liveFS).2.2.2.1 rfl (by rfl),
   ((ingestion_branches uploadReqNoMcp happyEnv scenarioFS).2.2.2.2
      (.errObj (validationMessage (missingFields (argsOf uploadReqNoMcp)))) (by rfl)).2
     snapshotCmd⟩

/-- Counterexample to claim C9 as stated: a live-data run missing both dates
is not rejected — the make-snapshot job is invoked and the run succeeds
(C9 claims such a run fails before any external job). -/
theorem dates_not_required_counterexample :
    liveReqNoDates.uploaded = none ∧
    liveReqNoDates.startDate = JsVal.undef ∧ liveReqNoDates.endDate = JsVal.undef ∧
    Ev.execJob snapshotCmd ∈ runTrace liveReqNoDates happyEnv liveFS ∧
    runPayload liveReqNoDates happyEnv liveFS =
      Payload.success "Optimization completed"
        ["results_trades_and_reserves.csv", "results_battery.csv",
         "results_pnl_by_product.csv"] :=
  ⟨rfl, rfl, rfl, by decide, by decide⟩

/-- Claim C9, amended: the dates are not validated in either mode —
validation depends only on the seven numeric fields, a live-data run
without dates proceeds to the make-snapshot job (the absent dates being
injected as the quoted literal `"undefined"`), and an uploaded run without
dates is accepted as well. -/
theorem dates_never_validated (req : Req) (a b : JsVal) :
    validateParams (argsOf {req with startDate := a, endDate := b}) =
      validateParams (argsOf req) ∧
    missingFields (argsOf {req with startDate := a, endDate := b}) =
      missingFields (argsOf req) ∧
    Ev.execJob snapshotCmd ∈ runTrace liveReqNoDates happyEnv liveFS ∧
    ("start_date = \"undefined\"") ∈
      splitLines (rewriteParams paramsFileContent (argsOf liveReqNoDates)) ∧
    runPayload uploadReqNoDates happyEnv scenarioFS =
      Payload.success "Optimization completed"
        ["results_trades_and_reserves.csv", "results_battery.csv",
         "results_pnl_by_product.csv"] :=
  ⟨rfl, rfl, by decide, by decide, by decide⟩

theorem runPayload_success_iff (req : Req) (env : Env) (fs : FS) (m : String)
    (outs : List String) :
    runPayload req env fs = Payload.success m outs ↔
      (runBody req env fs).1 = .ok () ∧ m = "Optimization completed" ∧
        outs = (runBody req env fs).2.1.map basename := by
  simp only [runPayload, runOptimization]
  cases hb : (runBody req env fs).1 with
  | ok u =>
    cases u
    simp [eq_comm]
  | error e =>
    simp

/-- Claim C3: from any otherwise-successful forecasting run, the same run
with forecasting disabled succeeds with a manifest exactly one entry
shorter (the forecast output is the extra entry), the forecast job runs
strictly before the optimization job, and the optimization job runs in
both. -/
theorem forecasting_adds_one_output (req : Req) (env : Env) (fs : FS) (m : String)
    (outs : List String)
    (h : runPayload {req with forecasting := JsVal.boolean true} env fs =
      Payload.success m outs) :
    runPayload {req with forecasting := JsVal.boolean false} env fs =
      Payload.success m (baseOutputFiles.map basename) ∧
    outs = baseOutputFiles.map basename ++ [basename forecastOutput] ∧
    [Ev.execJob forecastCmd, Ev.execJob optimizerCmd].Sublist
      (runTrace {req with forecasting := JsVal.boolean true} env fs) ∧
    Ev.execJob optimizerCmd ∈ runTrace {req with forecasting := JsVal.boolean false} env fs := by
  obtain ⟨upl, fcv, sdv, edv, cfgv⟩ := req
  rw [runPayload_success_iff] at h
  obtain ⟨hok, hm, houts⟩ := h
  have hupTF : updateParamsT (argsOf ⟨upl, JsVal.boolean true, sdv, edv, cfgv⟩) fs =
      updateParamsT (argsOf ⟨upl, fcv, sdv, edv, cfgv⟩) fs := rfl
  have hupFF : updateParamsT (argsOf ⟨upl, JsVal.boolean false, sdv, edv, cfgv⟩) fs =
      updateParamsT (argsOf ⟨upl, fcv, sdv, edv, cfgv⟩) fs := rfl
  have hfT : forecastFlag (Req.mk upl (JsVal.boolean true) sdv edv cfgv).forecasting = true := rfl
  have hfF : forecastFlag (Req.mk upl (JsVal.boolean false) sdv edv cfgv).forecasting = false := rfl
  rcases updateParamsT_cases (argsOf ⟨upl, fcv, sdv, edv, cfgv⟩) fs with ⟨e, hup2⟩ | ⟨c, hrd, hv, hup2⟩
  · rw [runBody, hupTF, hup2] at hok
    cases hok
  · simp only [runBody, hupTF, hup2] at hok houts
    cases upl with
    | some up =>
      have huT : (Req.mk (some up) (JsVal.boolean true) sdv edv cfgv).uploaded = some up := rfl
      have huF : (Req.mk (some up) (JsVal.boolean false) sdv edv cfgv).uploaded = some up := rfl
      cases hcu : fsRead (fsWrite fs PARAMS_PATH
          (rewriteParams c (argsOf ⟨some up, fcv, sdv, edv, cfgv⟩))) up with
      | none =>
        rw [ingest_uploaded_err _ env _ up huT hcu] at hok
        cases hok
      | some cu =>
        simp only [ingest_uploaded_ok _ env _ up cu huT hcu] at hok houts
        cases hfc : env.forecastJob.outcome.err with
        | some msg =>
          rw [runTail_forecast_err _ env _ msg hfT hfc] at hok
          cases hok
        | none =>
          cases hopt : env.optimizerJob.outcome.err with
          | some msg =>
            rw [runTail_forecast_ok_err _ env _ msg hfT hfc hopt] at hok
            cases hok
          | none =>
            have hbodyT : runBody ⟨some up, JsVal.boolean true, sdv, edv, cfgv⟩ env fs =
                (.ok (), baseOutputFiles ++ [forecastOutput],
                 applyWrites (applyWrites
                   (fsWrite (fsErase (fsWrite fs PARAMS_PATH (rewriteParams c (argsOf ⟨some up, fcv, sdv, edv, cfgv⟩))) up)
                     snapshotPath cu) env.forecastJob.produces) env.optimizerJob.produces,
                 [Ev.wroteParams] ++ [Ev.mkdirEv (dirname snapshotPath), Ev.renamed up snapshotPath]
                   ++ [Ev.execJob forecastCmd, Ev.execJob optimizerCmd]) := by
              simp only [runBody, hupTF, hup2, ingest_uploaded_ok _ env _ up cu huT hcu,
                runTail_forecast_ok_ok _ env _ hfT hfc hopt]
            have hbodyF : runBody ⟨some up, JsVal.boolean false, sdv, edv, cfgv⟩ env fs =
                (.ok (), baseOutputFiles,
                 applyWrites
                   (fsWrite (fsErase (fsWrite fs PARAMS_PATH (rewriteParams c (argsOf ⟨some up, fcv, sdv, edv, cfgv⟩))) up)
                     snapshotPath cu) env.optimizerJob.produces,
                 [Ev.wroteParams] ++ [Ev.mkdirEv (dirname snapshotPath), Ev.renamed up snapshotPath]
                   ++ [Ev.execJob optimizerCmd]) := by
              simp only [runBody, hupFF, hup2, ingest_uploaded_ok _ env _ up cu huF hcu,
                runTail_noforecast_ok _ env _ hfF hopt]
            refine ⟨?_, ?_, ?_, ?_⟩
            · rw [runPayload_success_iff]
              exact ⟨by rw [hbodyF], hm, by rw [hbodyF]⟩
            · rw [houts]
              simp only [runTail_forecast_ok_ok _ env _ hfT hfc hopt]
              simp
            · rw [runTrace_decomp, hbodyT]
              simp only [List.cons_append, List.nil_append, List.append_assoc]
              exact (((List.sublist_append_left _ _).cons _).cons _).cons _
            · rw [runTrace_decomp, hbodyF]
              simp
    | none =>
      have huT : (Req.mk none (JsVal.boolean true) sdv edv cfgv).uploaded = none := rfl
      have huF : (Req.mk none (JsVal.boolean false) sdv edv cfgv).uploaded = none := rfl
      cases hsn : env.snapshotJob.outcome.err with
      | some msg =>
        rw [ingest_live_err _ env _ msg huT hsn] at hok
        cases hok
      | none =>
        simp only [ingest_live_ok _ env _ huT hsn] at hok houts
        cases hfc : env.forecastJob.outcome.err with
        | some msg =>
          rw [runTail_forecast_err _ env _ msg hfT hfc] at hok
          cases hok
        | none =>
          cases hopt : env.optimizerJob.outcome.err with
          | some msg =>
            rw [runTail_forecast_ok_err _ env _ msg hfT hfc hopt] at hok
            cases hok
          | none =>
            have hbodyT : runBody ⟨none, JsVal.boolean true, sdv, edv, cfgv⟩ env fs =
                (.ok (), baseOutputFiles ++ [forecastOutput],
                 applyWrites (applyWrites
                   (applyWrites (fsWrite fs PARAMS_PATH (rewriteParams c (argsOf ⟨none, fcv, sdv, edv, cfgv⟩)))
                     env.snapshotJob.produces) env.forecastJob.produces) env.optimizerJob.produces,
                 [Ev.wroteParams] ++ [Ev.execJob snapshotCmd]
                   ++ [Ev.execJob forecastCmd, Ev.execJob optimizerCmd]) := by
              simp only [runBody, hupTF, hup2, ingest_live_ok _ env _ huT hsn,
                runTail_forecast_ok_ok _ env _ hfT hfc hopt]
            have hbodyF : runBody ⟨none, JsVal.boolean false, sdv, edv, cfgv⟩ env fs =
                (.ok (), baseOutputFiles,
                 applyWrites
                   (applyWrites (fsWrite fs PARAMS_PATH (rewriteParams c (argsOf ⟨none, fcv, sdv, edv, cfgv⟩)))
                     env.snapshotJob.produces) env.optimizerJob.produces,
                 [Ev.wroteParams] ++ [Ev.execJob snapshotCmd] ++ [Ev.execJob optimizerCmd]) := by
              simp only [runBody, hupFF, hup2, ingest_live_ok _ env _ huF hsn,
                runTail_noforecast_ok _ env _ hfF hopt]
            refine ⟨?_, ?_, ?_, ?_⟩
            · rw [runPayload_success_iff]
              exact ⟨by rw [hbodyF], hm, by rw [hbodyF]⟩
            · rw [houts]
              simp only [runTail_forecast_ok_ok _ env _ hfT hfc hopt]
              simp
            · rw [runTrace_decomp, hbodyT]
              simp only [List.cons_append, List.nil_append, List.append_assoc]
              exact ((List.sublist_append_left _ _).cons _).cons _
            · rw [runTrace_decomp, hbodyF]
              simp

/-- Witness for `forecasting_adds_one_output` on the concrete scenario with
forecasting switched on. -/
theorem forecasting_adds_one_output_witness :
    runPayload {scenarioReq with forecasting := JsVal.boolean false} happyEnv scenarioFS =
      Payload.success "Optimization completed" (baseOutputFiles.map basename) ∧
    ["results_trades_and_reserves.csv", "results_battery.csv",
     "results_pnl_by_product.csv", "mpc_forecast_results.csv"] =
      baseOutputFiles.map basename ++ [basename forecastOutput] ∧
    [Ev.execJob forecastCmd, Ev.execJob optimizerCmd].Sublist
      (runTrace {scenarioReq with forecasting := JsVal.boolean true} happyEnv scenarioFS) ∧
    Ev.execJob optimizerCmd ∈
      runTrace {scenarioReq with forecasting := JsVal.boolean false} happyEnv scenarioFS :=
  forecasting_adds_one_output scenarioReq happyEnv scenarioFS "Optimization completed"
    ["results_trades_and_reserves.csv", "results_battery.csv",
     "results_pnl_by_product.csv", "mpc_forecast_results.csv"] (by decide)

/-- An environment whose optimization job fails with captured error-stream
text. -/
def failEnv : Env :=
  { happyEnv with
    optimizerJob := { outcome := { err := some "exit 1", stdout := "", stderr := "numerical blowup" },
                      produces := [] } }

/-- Claim C6: on success the payload carries the fixed message and the base
names of every path in the run's manifest; on failure it carries the single
error string; and the spec's concrete scenario yields exactly the stated
payload, after which neither the output paths nor the snapshot path exist
on disk. -/
theorem response_payload_shape :
    (∀ (req : Req) (env : Env) (fs : FS) (m : String) (outs : List String),
      runPayload req env fs = Payload.success m outs →
        m = "Optimization completed" ∧ outs = (runManifest req env fs).map basename) ∧
    (∀ (req : Req) (env : Env) (fs : FS) (e : JsError),
      (runBody req env fs).1 = .error e →
        runPayload req env fs = Payload.failure (errString e)) ∧
    runPayload scenarioReq happyEnv scenarioFS =
      Payload.success "Optimization completed"
        ["results_trades_and_reserves.csv", "results_battery.csv",
         "results_pnl_by_product.csv"] ∧
    fsExists (runFS scenarioReq happyEnv scenarioFS) snapshotPath = false ∧
    (∀ p ∈ baseOutputFiles, fsExists (runFS scenarioReq happyEnv scenarioFS) p = false) := by
  refine ⟨?_, ?_, by decide, by decide, by decide⟩
  · intro req env fs m outs hs
    rw [runPayload_success_iff] at hs
    exact ⟨hs.2.1, hs.2.2⟩
  · intro req env fs e he
    simp [runPayload, runOptimization, he]

/-- Witness for `response_payload_shape` on its success and failure arms. -/
theorem response_payload_shape_witness :
    ("Optimization completed" = "Optimization completed" ∧
      ["results_trades_and_reserves.csv", "results_battery.csv",
       "results_pnl_by_product.csv"] =
        (runManifest scenarioReq happyEnv scenarioFS).map basename) ∧
    runPayload scenarioReq failEnv scenarioFS =
      Payload.failure (errString (JsError.thrown "numerical blowup")) :=
  ⟨response_payload_shape.1 scenarioReq happyEnv scenarioFS _ _ (by decide),
   response_payload_shape.2.1 scenarioReq failEnv scenarioFS _ (by rfl)⟩

/-- Claim C7: each job-runner call performs exactly one attempt (a single
`exec` event, no retry); on success it resolves with the captured standard
output, on failure it rejects with the captured error-stream text, falling
back to the invocation-level error message when no error-stream text was
captured. -/
theorem runCmd_contract (command : String) (o : ExecOutcome) :
    (runCmd command o).2 = [Ev.execJob command] ∧
    (o.err = none → (runCmd command o).1 = Except.ok o.stdout) ∧
    (∀ msg, o.err = some msg →
      (runCmd command o).1 =
        Except.error (JsError.thrown (if o.stderr == "" then msg else o.stderr))) := by
  refine ⟨runCmd_trace command o, ?_, ?_⟩
  · intro h; simp [runCmd, h]
  · intro msg h; simp [runCmd, h]

/-- Witness for `runCmd_contract`: stdout on success, stderr on failure,
the error message when stderr is empty. -/
theorem runCmd_contract_witness :
    (runCmd optimizerCmd { err := none, stdout := "done", stderr := "" }).1 =
      Except.ok "done" ∧
    (runCmd optimizerCmd { err := some "exit 1", stdout := "", stderr := "boom" }).1 =
      Except.error (JsError.thrown "boom") ∧
    (runCmd optimizerCmd { err := some "spawn failure", stdout := "", stderr := "" }).1 =
      Except.error (JsError.thrown "spawn failure") := by
  refine ⟨(runCmd_contract optimizerCmd _).2.1 rfl, ?_, ?_⟩
  · have := (runCmd_contract optimizerCmd
      { err := some "exit 1", stdout := "", stderr := "boom" }).2.2 "exit 1" rfl
    simpa using this
  · have := (runCmd_contract optimizerCmd
      { err := some "spawn failure", stdout := "", stderr := "" }).2.2 "spawn failure" rfl
    simpa using this

/-- Claim C10: each injector call writes the shared artifact at most once —
one whole-content write of the in-memory rewrite — and on an error exit
(validation failure or failed read) the on-disk artifact is unchanged and
nothing was written. -/
theorem updateParams_single_write (a : UpdateArgs) (fs : FS) :
    (updateParamsT a fs).2.2.countP (fun e => e == Ev.wroteParams) ≤ 1 ∧
    (∀ e, (updateParamsT a fs).1 = Except.error e →
      (updateParamsT a fs).2.1 = fs ∧ (updateParamsT a fs).2.2 = []) ∧
    ((updateParamsT a fs).1 = Except.ok () →
      ∃ c, fsRead fs PARAMS_PATH = some c ∧
        (updateParamsT a fs).2.1 = fsWrite fs PARAMS_PATH (rewriteParams c a) ∧
        (updateParamsT a fs).2.2 = [Ev.wroteParams]) := by
  rcases updateParamsT_cases a fs with ⟨e, hup⟩ | ⟨c, hrd, hv, hup⟩
  · rw [hup]
    refine ⟨by simp, fun e2 _ => ⟨rfl, rfl⟩, fun h => absurd h (by simp)⟩
  · rw [hup]
    refine ⟨by simp, fun e2 h => absurd h (by simp), fun _ => ⟨c, hrd, rfl, rfl⟩⟩

/-- Witness for `updateParams_single_write` on both exits. -/
theorem updateParams_single_write_witness :
    ((updateParamsT (argsOf liveReqNoMcp) liveFS).2.1 = liveFS ∧
      (updateParamsT (argsOf liveReqNoMcp) liveFS).2.2 = []) ∧
    ∃ c, fsRead liveFS PARAMS_PATH = some c ∧
      (updateParamsT (argsOf liveReq) liveFS).2.1 =
        fsWrite liveFS PARAMS_PATH (rewriteParams c (argsOf liveReq)) ∧
      (updateParamsT (argsOf liveReq) liveFS).2.2 = [Ev.wroteParams] :=
  ⟨(updateParams_single_write (argsOf liveReqNoMcp) liveFS).2.1
      (JsError.errObj (validationMessage (missingFields (argsOf liveReqNoMcp)))) (by rfl),
   (updateParams_single_write (argsOf liveReq) liveFS).2.2 (by rfl)⟩

/-! ## The injector's line replacement (C4) -/

theorem isPrefixOf_append_self (l r : List Char) : l.isPrefixOf (l ++ r) = true := by
  induction l with
  | nil => cases r with | nil => rfl | cons c cs => rfl
  | cons c cs ih => simp [List.isPrefixOf, ih]

/-- The freshly injected line matches the key's assignment regex again. -/
theorem lineMatches_inject (key value : String) :
    lineMatches key (key ++ " = " ++ value) = true := by
  have hdata : (key ++ " = " ++ value).data = key.data ++ (' ' :: '=' :: ' ' :: value.data) := by
    show (key.data ++ [' ', '=', ' ']) ++ value.data =
      key.data ++ (' ' :: '=' :: ' ' :: value.data)
    rw [List.append_assoc]
    rfl
  unfold lineMatches lineMatchesL
  rw [hdata, isPrefixOf_append_self, List.drop_left]
  rfl

theorem lineReplace_no_match (key value : String) :
    ∀ lines : List String, lines.countP (lineMatches key) = 0 →
      lineReplace lines key value = lines := by
  intro lines
  induction lines with
  | nil => intro _; rfl
  | cons l ls ih =>
    intro h
    rw [List.countP_cons] at h
    by_cases hm : lineMatches key l = true
    · simp [hm] at h
    · rw [Bool.not_eq_true] at hm
      have h0 : ls.countP (lineMatches key) = 0 := by simpa [hm] using h
      simp [lineReplace, hm, ih h0]

theorem lineReplace_unique_match (key value : String) :
    ∀ lines : List String, lines.countP (lineMatches key) = 1 →
      ∃ pre old post, lines = pre ++ old :: post ∧
        pre.countP (lineMatches key) = 0 ∧ post.countP (lineMatches key) = 0 ∧
        lineMatches key old = true ∧
        lineReplace lines key value = pre ++ (key ++ " = " ++ value) :: post := by
  intro lines
  induction lines with
  | nil => intro h; simp at h
  | cons l ls ih =>
    intro h
    rw [List.countP_cons] at h
    by_cases hm : lineMatches key l = true
    · have hls : ls.countP (lineMatches key) = 0 := by simpa [hm] using h
      refine ⟨[], l, ls, rfl, rfl, hls, hm, ?_⟩
      simp [lineReplace, hm]
    · rw [Bool.not_eq_true] at hm
      have hls : ls.countP (lineMatches key) = 1 := by simpa [hm] using h
      obtain ⟨pre, old, post, heq, hpre, hpost, hold, hrep⟩ := ih hls
      refine ⟨l :: pre, old, post, by rw [heq]; rfl, ?_, hpost, hold, ?_⟩
      · rw [List.countP_cons]
        simp [hm, hpre]
      · simp only [lineReplace, hm, Bool.false_eq_true, if_false]
        rw [hrep]
        rfl

/-! ### Scanning helpers for the faithful replacement -/

theorem takeWhile_all (p : Char → Bool) :
    ∀ l : List Char, (∀ c ∈ l, p c = true) → l.takeWhile p = l := by
  intro l
  induction l with
  | nil => intro _; rfl
  | cons c cs ih =>
    intro h
    rw [List.takeWhile_cons, h c (List.mem_cons_self c cs)]
    simp [ih (fun x hx => h x (List.mem_cons_of_mem c hx))]

theorem dropWhile_all (p : Char → Bool) :
    ∀ l : List Char, (∀ c ∈ l, p c = true) → l.dropWhile p = [] := by
  intro l
  induction l with
  | nil => intro _; rfl
  | cons c cs ih =>
    intro h
    rw [List.dropWhile_cons, h c (List.mem_cons_self c cs)]
    simp [ih (fun x hx => h x (List.mem_cons_of_mem c hx))]

theorem takeWhile_append_stop (p : Char → Bool) (l : List Char)
    (hl : ∀ c ∈ l, p c = true) (c : Char) (hc : p c = false) (r : List Char) :
    (l ++ c :: r).takeWhile p = l := by
  induction l with
  | nil => simp [List.takeWhile_cons, hc]
  | cons a as ih =>
    rw [List.cons_append, List.takeWhile_cons, hl a (List.mem_cons_self a as)]
    simp [ih (fun x hx => hl x (List.mem_cons_of_mem a hx))]

theorem dropWhile_append_stop (p : Char → Bool) (l : List Char)
    (hl : ∀ c ∈ l, p c = true) (c : Char) (hc : p c = false) (r : List Char) :
    (l ++ c :: r).dropWhile p = c :: r := by
  induction l with
  | nil => simp [List.dropWhile_cons, hc]
  | cons a as ih =>
    rw [List.cons_append, List.dropWhile_cons, hl a (List.mem_cons_self a as)]
    simp [ih (fun x hx => hl x (List.mem_cons_of_mem a hx))]

theorem exists_first_not (p : Char → Bool) :
    ∀ l : List Char, l.all p = false →
      ∃ w c t, l = w ++ c :: t ∧ (∀ x ∈ w, p x = true) ∧ p c = false := by
  intro l
  induction l with
  | nil => intro h; simp at h
  | cons a as ih =>
    intro h
    rw [List.all_cons] at h
    by_cases ha : p a = true
    · rw [ha, Bool.true_and] at h
      obtain ⟨w, c, t, heq, hw, hc⟩ := ih h
      refine ⟨a :: w, c, t, by rw [heq]; rfl, ?_, hc⟩
      intro x hx
      rcases List.mem_cons.mp hx with rfl | hx
      · exact ha
      · exact hw x hx
    · rw [Bool.not_eq_true] at ha
      exact ⟨[], a, as, rfl, fun x hx => absurd hx (List.not_mem_nil x), ha⟩

theorem jsWs_of_wsp {c : Char} (h : wsp c = true) : jsWs c = true := by
  rw [jsWs, h, Bool.true_or]

theorem newline_beq_false {c : Char} (h : isLineEnd c = false) : (c == '\n') = false := by
  rw [isLineEnd, Bool.or_eq_false_iff] at h
  exact h.1

theorem jsWs_false_of {c : Char} (h1 : wsp c = false) (h2 : isLineEnd c = false) :
    jsWs c = false := by
  rw [jsWs, h1, Bool.false_or]
  exact newline_beq_false h2

theorem isPrefixOf_append_line (key : List Char) (hkey : ∀ c ∈ key, isLineEnd c = false) :
    ∀ (l rest : List Char), (rest = [] ∨ ∃ R, rest = '\n' :: R) →
      key.isPrefixOf (l ++ rest) = key.isPrefixOf l := by
  induction key with
  | nil =>
    intro l rest _
    cases l with
    | nil => cases rest with | nil => rfl | cons r rs => rfl
    | cons a l' => rfl
  | cons k ks ih =>
    intro l rest hrest
    cases l with
    | nil =>
      rcases hrest with rfl | ⟨R, rfl⟩
      · rfl
      · have hk : (k == '\n') = false :=
          newline_beq_false (hkey k (List.mem_cons_self k ks))
        show ((k == '\n') && ks.isPrefixOf R) = (k :: ks).isPrefixOf []
        rw [hk, Bool.false_and]
        rfl
    | cons a l' =>
      show ((k == a) && ks.isPrefixOf (l' ++ rest)) = ((k == a) && ks.isPrefixOf l')
      rw [ih (fun c hc => hkey c (List.mem_cons_of_mem k hc)) l' rest hrest]

theorem eq_append_drop_of_isPrefixOf :
    ∀ (key l : List Char), key.isPrefixOf l = true → l = key ++ l.drop key.length := by
  intro key
  induction key with
  | nil => intro l _; rfl
  | cons k ks ih =>
    intro l h
    cases l with
    | nil => simp [List.isPrefixOf] at h
    | cons a l' =>
      have h' : (k == a) = true ∧ ks.isPrefixOf l' = true := by
        simpa [List.isPrefixOf, Bool.and_eq_true] using h
      have hka : k = a := eq_of_beq h'.1
      subst hka
      show k :: l' = k :: (ks ++ (k :: l').drop (ks.length + 1))
      rw [List.drop_succ_cons]
      rw [← ih l' h'.2]

theorem trailMatches_decomp : ∀ t : List Char, trailMatches t = true →
    ∃ w b, t = w ++ '=' :: b ∧ ∀ c ∈ w, wsp c = true := by
  intro t
  induction t with
  | nil => intro h; cases h
  | cons c cs ih =>
    intro h
    rw [trailMatches] at h
    by_cases hc : (c == '=') = true
    · refine ⟨[], cs, ?_, by intro x hx; cases hx⟩
      rw [eq_of_beq hc]
      rfl
    · rw [Bool.not_eq_true] at hc
      rw [hc] at h
      simp only [Bool.false_eq_true, if_false] at h
      by_cases hw : wsp c = true
      · rw [if_pos hw] at h
        obtain ⟨w, b, heq, hwall⟩ := ih h
        refine ⟨c :: w, b, by rw [heq]; rfl, ?_⟩
        intro x hx
        rcases List.mem_cons.mp hx with rfl | hx
        · exact hw
        · exact hwall x hx
      · rw [if_neg hw] at h
        cases h

theorem trailMatches_wsp_eq :
    ∀ w : List Char, (∀ c ∈ w, wsp c = true) → ∀ b, trailMatches (w ++ '=' :: b) = true := by
  intro w
  induction w with
  | nil => intro _ b; rfl
  | cons c w' ih =>
    intro h b
    rw [List.cons_append, trailMatches]
    have hw : wsp c = true := h c (List.mem_cons_self c w')
    by_cases hc : (c == '=') = true
    · simp [hc]
    · rw [Bool.not_eq_true] at hc
      simp [hc, hw, ih (fun x hx => h x (List.mem_cons_of_mem c hx)) b]

/-- At a line start carrying a matching line, the regex matches exactly that
line: the key, then line-local whitespace, then `=`, then the rest of the
line, stopping at the line terminator. -/
theorem matchAt_match (key l rest : List Char)
    (hkey : ∀ c ∈ key, isLineEnd c = false)
    (hl : ∀ c ∈ l, isLineEnd c = false)
    (hrest : rest = [] ∨ ∃ R, rest = '\n' :: R)
    (hm : lineMatchesL key l = true) :
    matchAt key (l ++ rest) = some (l, rest) := by
  rw [lineMatchesL, Bool.and_eq_true] at hm
  obtain ⟨hp, ht⟩ := hm
  obtain ⟨w, b, hteq, hwall⟩ := trailMatches_decomp _ ht
  have hl2 : l = key ++ (w ++ '=' :: b) := by
    rw [← hteq]
    exact eq_append_drop_of_isPrefixOf key l hp
  have hcond : key.isPrefixOf (l ++ rest) = true := by
    rw [isPrefixOf_append_line key hkey l rest hrest]
    exact hp
  have hdropk : (l ++ rest).drop key.length = w ++ '=' :: (b ++ rest) := by
    rw [hl2, List.append_assoc, List.drop_left, List.append_assoc, List.cons_append]
  have hwjs : ∀ c ∈ w, jsWs c = true := fun c hc => jsWs_of_wsp (hwall c hc)
  have hbfree : ∀ c ∈ b, isLineEnd c = false := by
    intro c hc
    apply hl
    rw [hl2]
    simp [hc]
  have hdw : (w ++ '=' :: (b ++ rest)).dropWhile jsWs = '=' :: (b ++ rest) :=
    dropWhile_append_stop jsWs w hwjs '=' (by decide) (b ++ rest)
  have htk : (w ++ '=' :: (b ++ rest)).takeWhile jsWs = w :=
    takeWhile_append_stop jsWs w hwjs '=' (by decide) (b ++ rest)
  have hbtk : (b ++ rest).takeWhile (fun x => !isLineEnd x) = b := by
    rcases hrest with rfl | ⟨R, rfl⟩
    · rw [List.append_nil]
      exact takeWhile_all _ b (fun c hc => by simp [hbfree c hc])
    · exact takeWhile_append_stop _ b (fun c hc => by simp [hbfree c hc]) '\n' (by decide) R
  have hbdp : (b ++ rest).dropWhile (fun x => !isLineEnd x) = rest := by
    rcases hrest with rfl | ⟨R, rfl⟩
    · rw [List.append_nil]
      exact dropWhile_all _ b (fun c hc => by simp [hbfree c hc])
    · exact dropWhile_append_stop _ b (fun c hc => by simp [hbfree c hc]) '\n' (by decide) R
  simp only [matchAt]
  rw [if_pos hcond, hdropk, hdw]
  show (if ('=' == '=') = true then
      some (key ++ (w ++ '=' :: (b ++ rest)).takeWhile jsWs ++
            '=' :: (b ++ rest).takeWhile (fun x => !isLineEnd x),
            (b ++ rest).dropWhile (fun x => !isLineEnd x))
    else none) = some (l, rest)
  rw [htk, hbtk, hbdp, if_pos (by decide)]
  rw [List.append_assoc, ← hl2]

/-- At a line start carrying a non-matching, non-dangling line, the regex
fails. -/
theorem matchAt_none (key l rest : List Char)
    (hkey : ∀ c ∈ key, isLineEnd c = false)
    (hl : ∀ c ∈ l, isLineEnd c = false)
    (hrest : rest = [] ∨ ∃ R, rest = '\n' :: R)
    (hnm : lineMatchesL key l = false) (hnd : danglingL key l = false) :
    matchAt key (l ++ rest) = none := by
  by_cases hp : key.isPrefixOf l = true
  · have hl2 : l = key ++ l.drop key.length := eq_append_drop_of_isPrefixOf key l hp
    have hall : (l.drop key.length).all wsp = false := by
      rw [danglingL, hp, Bool.true_and] at hnd
      exact hnd
    have htm : trailMatches (l.drop key.length) = false := by
      rw [lineMatchesL, hp, Bool.true_and] at hnm
      exact hnm
    obtain ⟨w, c0, t2, hsplit, hwall, hc0⟩ := exists_first_not wsp (l.drop key.length) hall
    have hc0eq : (c0 == '=') = false := by
      cases hce : c0 == '=' with
      | false => rfl
      | true =>
        exfalso
        have hc0v : c0 = '=' := eq_of_beq hce
        rw [hsplit, hc0v, trailMatches_wsp_eq w hwall t2] at htm
        cases htm
    have hc0mem : c0 ∈ l := by
      rw [hl2, hsplit]
      simp
    have hc0le : isLineEnd c0 = false := hl c0 hc0mem
    have hc0js : jsWs c0 = false := jsWs_false_of hc0 hc0le
    have hcond : key.isPrefixOf (l ++ rest) = true := by
      rw [isPrefixOf_append_line key hkey l rest hrest]
      exact hp
    have hdropk : (l ++ rest).drop key.length = w ++ c0 :: (t2 ++ rest) := by
      rw [hl2, hsplit, List.append_assoc, List.drop_left, List.append_assoc, List.cons_append]
    have hwjs : ∀ x ∈ w, jsWs x = true := fun x hx => jsWs_of_wsp (hwall x hx)
    have hdw : (w ++ c0 :: (t2 ++ rest)).dropWhile jsWs = c0 :: (t2 ++ rest) :=
      dropWhile_append_stop jsWs w hwjs c0 hc0js (t2 ++ rest)
    simp only [matchAt]
    rw [if_pos hcond, hdropk, hdw]
    show (if (c0 == '=') = true then
        some (key ++ (w ++ c0 :: (t2 ++ rest)).takeWhile jsWs ++
              '=' :: (t2 ++ rest).takeWhile (fun x => !isLineEnd x),
              (t2 ++ rest).dropWhile (fun x => !isLineEnd x))
      else none) = none
    rw [hc0eq]
    rfl
  · have hcond : key.isPrefixOf (l ++ rest) = false := by
      rw [isPrefixOf_append_line key hkey l rest hrest]
      rw [Bool.not_eq_true] at hp
      exact hp
    simp only [matchAt]
    rw [if_neg (by simp [hcond])]

theorem scanChars_nil (key : List Char) (b : Bool) : scanChars key b [] = none := by
  cases b <;> rfl

theorem scanChars_cons_false (key : List Char) (c : Char) (rest : List Char) :
    scanChars key false (c :: rest) =
      (scanChars key (isLineEnd c) rest).map (fun p => (c :: p.1, p.2.1, p.2.2)) := by
  rfl

theorem scanChars_cons_true_none (key : List Char) (c : Char) (rest : List Char)
    (h : matchAt key (c :: rest) = none) :
    scanChars key true (c :: rest) =
      (scanChars key (isLineEnd c) rest).map (fun p => (c :: p.1, p.2.1, p.2.2)) := by
  simp [scanChars, h]

theorem scanChars_cons_true_some (key : List Char) (c : Char) (rest m after : List Char)
    (h : matchAt key (c :: rest) = some (m, after)) :
    scanChars key true (c :: rest) = some ([], m, after) := by
  simp [scanChars, h]

/-- Away from a line start, the scanner walks through terminator-free text
without matching. -/
theorem scan_interior (key : List Char) :
    ∀ l : List Char, (∀ c ∈ l, isLineEnd c = false) → ∀ tail : List Char,
      scanChars key false (l ++ tail) =
        (scanChars key false tail).map (fun p => (l ++ p.1, p.2.1, p.2.2)) := by
  intro l
  induction l with
  | nil =>
    intro _ tail
    rw [List.nil_append]
    cases scanChars key false tail with
    | none => rfl
    | some p => rfl
  | cons c l' ih =>
    intro h tail
    rw [List.cons_append, scanChars_cons_false, h c (List.mem_cons_self c l'),
        ih (fun x hx => h x (List.mem_cons_of_mem c hx)) tail]
    cases scanChars key false tail with
    | none => rfl
    | some p => rfl

theorem scan_line_false (key : List Char) (l : List Char)
    (hl : ∀ c ∈ l, isLineEnd c = false) (R : List Char) :
    scanChars key false (l ++ '\n' :: R) =
      (scanChars key true R).map (fun p => (l ++ '\n' :: p.1, p.2.1, p.2.2)) := by
  rw [scan_interior key l hl ('\n' :: R), scanChars_cons_false,
      show isLineEnd '\n' = true from rfl]
  cases scanChars key true R with
  | none => rfl
  | some p => rfl

/-- The scanner skips a whole non-matching, non-dangling line and resumes
at a line start. -/
theorem scan_line_true_step (key : List Char)
    (hkey : ∀ c ∈ key, isLineEnd c = false)
    (l : List Char) (hl : ∀ c ∈ l, isLineEnd c = false)
    (hnm : lineMatchesL key l = false) (hnd : danglingL key l = false)
    (R : List Char) :
    scanChars key true (l ++ '\n' :: R) =
      (scanChars key true R).map (fun p => (l ++ '\n' :: p.1, p.2.1, p.2.2)) := by
  have hm0 : matchAt key (l ++ '\n' :: R) = none :=
    matchAt_none key l ('\n' :: R) hkey hl (Or.inr ⟨R, rfl⟩) hnm hnd
  cases l with
  | nil =>
    rw [List.nil_append] at hm0 ⊢
    rw [scanChars_cons_true_none key '\n' R hm0, show isLineEnd '\n' = true from rfl]
    cases scanChars key true R with
    | none => rfl
    | some p => rfl
  | cons c l' =>
    rw [List.cons_append] at hm0 ⊢
    rw [scanChars_cons_true_none key c (l' ++ '\n' :: R) hm0,
        hl c (List.mem_cons_self c l'),
        scan_line_false key l' (fun x hx => hl x (List.mem_cons_of_mem c hx)) R]
    cases scanChars key true R with
    | none => rfl
    | some p => rfl

/-- The scanner finds nothing in a final non-matching, non-dangling line. -/
theorem scan_line_true_last (key : List Char)
    (hkey : ∀ c ∈ key, isLineEnd c = false)
    (l : List Char) (hl : ∀ c ∈ l, isLineEnd c = false)
    (hnm : lineMatchesL key l = false) (hnd : danglingL key l = false) :
    scanChars key true l = none := by
  have hm0 : matchAt key (l ++ []) = none :=
    matchAt_none key l [] hkey hl (Or.inl rfl) hnm hnd
  rw [List.append_nil] at hm0
  cases l with
  | nil => exact scanChars_nil key true
  | cons c l' =>
    rw [scanChars_cons_true_none key c l' hm0, hl c (List.mem_cons_self c l')]
    have h2 := scan_interior key l' (fun x hx => hl x (List.mem_cons_of_mem c hx)) []
    rw [List.append_nil, scanChars_nil] at h2
    rw [h2]
    rfl

/-- The scanner recognises a matching line at a line start. -/
theorem scan_line_true_match (key : List Char) (hknil : key ≠ [])
    (hkey : ∀ c ∈ key, isLineEnd c = false)
    (l : List Char) (hl : ∀ c ∈ l, isLineEnd c = false)
    (hm : lineMatchesL key l = true)
    (rest : List Char) (hrest : rest = [] ∨ ∃ R, rest = '\n' :: R) :
    scanChars key true (l ++ rest) = some ([], l, rest) := by
  have hma : matchAt key (l ++ rest) = some (l, rest) :=
    matchAt_match key l rest hkey hl hrest hm
  cases l with
  | nil =>
    exfalso
    cases key with
    | nil => exact hknil rfl
    | cons k ks =>
      have hfalse : lineMatchesL (k :: ks) [] = false := rfl
      rw [hfalse] at hm
      cases hm
  | cons c l' =>
    rw [List.cons_append] at hma ⊢
    exact scanChars_cons_true_some key c (l' ++ rest) (c :: l') rest hma

/-! ### Joining lines back into a document -/

/-- `charJoin` is `joinWith "\n"` on character lists. -/
def charJoin : List (List Char) → List Char
  | [] => []
  | [l] => l
  | l :: ls => l ++ '\n' :: charJoin ls

/-- The text before a chosen line in the joined document. -/
def joinBefore : List (List Char) → List Char
  | [] => []
  | l :: ls => l ++ '\n' :: joinBefore ls

/-- The text after a chosen line in the joined document. -/
def joinAfter : List (List Char) → List Char
  | [] => []
  | l :: ls => '\n' :: charJoin (l :: ls)

theorem charJoin_cons (l : List Char) (ls : List (List Char)) (h : ls ≠ []) :
    charJoin (l :: ls) = l ++ '\n' :: charJoin ls := by
  cases ls with
  | nil => exact absurd rfl h
  | cons a as => rfl

theorem charJoin_decomp :
    ∀ (pre : List (List Char)) (l : List Char) (post : List (List Char)),
      charJoin (pre ++ l :: post) = joinBefore pre ++ (l ++ joinAfter post) := by
  intro pre
  induction pre with
  | nil =>
    intro l post
    cases post with
    | nil =>
      show l = [] ++ (l ++ [])
      rw [List.nil_append, List.append_nil]
    | cons p ps =>
      show l ++ '\n' :: charJoin (p :: ps) = [] ++ (l ++ '\n' :: charJoin (p :: ps))
      rw [List.nil_append]
  | cons a pre' ih =>
    intro l post
    have hne : pre' ++ l :: post ≠ [] := by cases pre' <;> simp
    rw [List.cons_append, charJoin_cons a (pre' ++ l :: post) hne, ih l post]
    show a ++ '\n' :: (joinBefore pre' ++ (l ++ joinAfter post)) =
      (a ++ '\n' :: joinBefore pre') ++ (l ++ joinAfter post)
    rw [List.append_assoc]
    rfl

theorem joinWith_data : ∀ lines : List String,
    (joinWith "\n" lines).data = charJoin (lines.map String.data) := by
  intro lines
  induction lines with
  | nil => rfl
  | cons l ls ih =>
    cases ls with
    | nil => rfl
    | cons l2 ls2 =>
      show (l ++ "\n" ++ joinWith "\n" (l2 :: ls2)).data =
        l.data ++ '\n' :: charJoin ((l2 :: ls2).map String.data)
      rw [← ih]
      show (l.data ++ ['\n']) ++ (joinWith "\n" (l2 :: ls2)).data =
        l.data ++ '\n' :: (joinWith "\n" (l2 :: ls2)).data
      rw [List.append_assoc]
      rfl

/-- No line matches, no line dangles: the scan of the whole document fails. -/
theorem scan_join_none (key : List Char)
    (hkey : ∀ c ∈ key, isLineEnd c = false) :
    ∀ lsc : List (List Char),
      (∀ l ∈ lsc, (∀ c ∈ l, isLineEnd c = false) ∧
        lineMatchesL key l = false ∧ danglingL key l = false) →
      scanChars key true (charJoin lsc) = none := by
  intro lsc
  induction lsc with
  | nil => intro _; exact scanChars_nil key true
  | cons l ls ih =>
    intro h
    obtain ⟨hf, hnm, hnd⟩ := h l (List.mem_cons_self l ls)
    cases ls with
    | nil =>
      show scanChars key true l = none
      exact scan_line_true_last key hkey l hf hnm hnd
    | cons l2 ls2 =>
      rw [charJoin_cons l (l2 :: ls2) (by simp),
          scan_line_true_step key hkey l hf hnm hnd (charJoin (l2 :: ls2)),
          ih (fun x hx => h x (List.mem_cons_of_mem l hx))]
      rfl

/-- A first matching line after non-matching, non-dangling lines: the scan
returns exactly the text before it, the line, and the text after it. -/
theorem scan_join_match (key : List Char) (hknil : key ≠ [])
    (hkey : ∀ c ∈ key, isLineEnd c = false) :
    ∀ (pre : List (List Char)) (l : List Char) (post : List (List Char)),
      (∀ x ∈ pre, (∀ c ∈ x, isLineEnd c = false) ∧
        lineMatchesL key x = false ∧ danglingL key x = false) →
      (∀ c ∈ l, isLineEnd c = false) →
      lineMatchesL key l = true →
      scanChars key true (charJoin (pre ++ l :: post)) =
        some (joinBefore pre, l, joinAfter post) := by
  intro pre
  induction pre with
  | nil =>
    intro l post _ hf hm
    cases post with
    | nil =>
      have hres := scan_line_true_match key hknil hkey l hf hm [] (Or.inl rfl)
      rw [List.append_nil] at hres
      exact hres
    | cons p ps =>
      exact scan_line_true_match key hknil hkey l hf hm ('\n' :: charJoin (p :: ps))
        (Or.inr ⟨charJoin (p :: ps), rfl⟩)
  | cons a pre' ih =>
    intro l post hpre hf hm
    obtain ⟨haf, hanm, hand⟩ := hpre a (List.mem_cons_self a pre')
    have hne : pre' ++ l :: post ≠ [] := by cases pre' <;> simp
    rw [List.cons_append, charJoin_cons a (pre' ++ l :: post) hne,
        scan_line_true_step key hkey a haf hanm hand (charJoin (pre' ++ l :: post)),
        ih l post (fun x hx => hpre x (List.mem_cons_of_mem a hx)) hf hm]
    rfl

/-- A dollar-free replacement string is substituted literally. -/
theorem expandRepl_no_dollar (matched before after : List Char) :
    ∀ r : List Char, '$' ∉ r → expandRepl matched before after r = r := by
  intro r
  induction r with
  | nil => intro _; rfl
  | cons c rest ih =>
    intro h
    have hcb : (c == '$') = false := by
      cases hcb : c == '$' with
      | false => rfl
      | true => exact absurd (List.mem_cons.mpr (Or.inl (eq_of_beq hcb).symm)) h
    rw [expandRepl.eq_def]
    simp only [hcb, Bool.false_eq_true, if_false]
    rw [ih (fun hm => h (List.mem_cons.mpr (Or.inr hm)))]

/-- Every supported key is nonempty, line-terminator free and dollar free. -/
theorem supportedKeys_fact : ∀ k ∈ supportedKeys,
    k.data ≠ [] ∧ (∀ c ∈ k.data, isLineEnd c = false) ∧ '$' ∉ k.data := by
  decide

/-- No line matches and no line dangles: the real replacement is the
identity on the joined document. -/
theorem replaceValue_join_none (key value : String)
    (hkey : ∀ c ∈ key.data, isLineEnd c = false)
    (lines : List String)
    (hfree : ∀ l ∈ lines, ∀ c ∈ l.data, isLineEnd c = false)
    (hnm : ∀ l ∈ lines, lineMatches key l = false)
    (hnd : ∀ l ∈ lines, dangling key l = false) :
    replaceValue (joinWith "\n" lines) key value = joinWith "\n" lines := by
  have hscan : scanChars key.data true (joinWith "\n" lines).data = none := by
    rw [joinWith_data]
    apply scan_join_none key.data hkey
    intro x hx
    obtain ⟨l, hl, rfl⟩ := List.mem_map.mp hx
    exact ⟨hfree l hl, hnm l hl, hnd l hl⟩
  unfold replaceValue
  rw [hscan]

/-- A unique matching line after non-matching, non-dangling lines: the real
replacement rewrites exactly that line in the joined document. -/
theorem replaceValue_join_match (key value : String)
    (hknil : key.data ≠ []) (hkey : ∀ c ∈ key.data, isLineEnd c = false)
    (hdollar : '$' ∉ (key ++ " = " ++ value).data)
    (pre post : List String) (old : String)
    (hpre : ∀ l ∈ pre, (∀ c ∈ l.data, isLineEnd c = false) ∧
      lineMatches key l = false ∧ dangling key l = false)
    (hof : ∀ c ∈ old.data, isLineEnd c = false)
    (hom : lineMatches key old = true) :
    replaceValue (joinWith "\n" (pre ++ old :: post)) key value =
      joinWith "\n" (pre ++ (key ++ " = " ++ value) :: post) := by
  have hmap : (pre ++ old :: post).map String.data =
      pre.map String.data ++ old.data :: post.map String.data := by
    simp
  have hscan : scanChars key.data true (joinWith "\n" (pre ++ old :: post)).data =
      some (joinBefore (pre.map String.data), old.data, joinAfter (post.map String.data)) := by
    rw [joinWith_data, hmap]
    apply scan_join_match key.data hknil hkey
    · intro x hx
      obtain ⟨l, hl, rfl⟩ := List.mem_map.mp hx
      exact ⟨(hpre l hl).1, (hpre l hl).2.1, (hpre l hl).2.2⟩
    · exact hof
    · exact hom
  unfold replaceValue
  rw [hscan]
  show String.mk (joinBefore (pre.map String.data) ++
      expandRepl old.data (joinBefore (pre.map String.data))
        (joinAfter (post.map String.data)) ((key ++ " = " ++ value).data) ++
      joinAfter (post.map String.data)) =
    joinWith "\n" (pre ++ (key ++ " = " ++ value) :: post)
  rw [expandRepl_no_dollar old.data (joinBefore (pre.map String.data))
      (joinAfter (post.map String.data)) ((key ++ " = " ++ value).data) hdollar]
  have hstr : ∀ s t : String, s.data = t.data → s = t := by
    intro s t h
    cases s with
    | mk d1 =>
      cases t with
      | mk d2 =>
        have h2 : d1 = d2 := h
        rw [h2]
  apply hstr
  have hmap2 : (pre ++ (key ++ " = " ++ value) :: post).map String.data =
      pre.map String.data ++ (key ++ " = " ++ value).data :: post.map String.data := by
    simp
  rw [joinWith_data, hmap2, charJoin_decomp]
  show (joinBefore (pre.map String.data) ++ (key ++ " = " ++ value).data) ++
      joinAfter (post.map String.data) =
    joinBefore (pre.map String.data) ++
      ((key ++ " = " ++ value).data ++ joinAfter (post.map String.data))
  rw [List.append_assoc]

/-- Counterexample to claim C4 as frozen.  The artifact `"mcp\n= 1"` has no
line matching `^mcp\s*=.*$` in the line-local reading, yet the injector
changes it: JS `\s` matches the newline even under the `m` flag, so the
regex matches across the line break.  The artifact `"mcp \n = 1\nmcp = 2"`
has exactly one matching line, but the result is not that line replaced:
the cross-line match consumes the first two lines, and the key's assignment
line appears twice afterwards.  And a replacement value containing `$&` is
substituted, not inserted literally. -/
theorem replaceValue_round_trip_counterexample :
    ((splitLines "mcp\n= 1").countP (lineMatches "mcp") = 0 ∧
      replaceValue "mcp\n= 1" "mcp" "9" = "mcp = 9") ∧
    ((splitLines "mcp \n = 1\nmcp = 2").countP (lineMatches "mcp") = 1 ∧
      splitLines (replaceValue "mcp \n = 1\nmcp = 2" "mcp" "9") ≠
        lineReplace (splitLines "mcp \n = 1\nmcp = 2") "mcp" "9" ∧
      (splitLines (replaceValue "mcp \n = 1\nmcp = 2" "mcp" "9")).countP
        (lineMatches "mcp") = 2) ∧
    (replaceValue "mcp = 1" "mcp" "$&" = "mcp = mcp = 1" ∧
      replaceValue "mcp = 1" "mcp" "$&" ≠ "mcp = $&") := by
  decide

/-- Claim C4 (corrected): for a supported key, a dollar-free value, and an
artifact whose lines are free of stray line terminators and in which no
line consists of the key followed by only whitespace (a dangling key, at
which the regex's `\s*` would cross the line break): if exactly one line
matches `^<key>\s*=.*$`, injection replaces exactly that line by
`<key> = <value>`, leaves every other line unchanged, and the key's
assignment line occurs exactly once afterwards; with no matching line the
artifact is unchanged (silent no-op). -/
theorem replaceValue_round_trip (lines : List String) (key value : String)
    (hkeys : key ∈ supportedKeys)
    (hval : '$' ∉ value.data)
    (hfree : ∀ l ∈ lines, ∀ c ∈ l.data, isLineEnd c = false)
    (hnd : ∀ l ∈ lines, dangling key l = false) :
    (lines.countP (lineMatches key) = 1 →
      ∃ pre post old, lines = pre ++ old :: post ∧ lineMatches key old = true ∧
        pre.countP (lineMatches key) = 0 ∧ post.countP (lineMatches key) = 0 ∧
        replaceValue (joinWith "\n" lines) key value =
          joinWith "\n" (pre ++ (key ++ " = " ++ value) :: post) ∧
        (pre ++ (key ++ " = " ++ value) :: post).countP (lineMatches key) = 1) ∧
    (lines.countP (lineMatches key) = 0 →
      replaceValue (joinWith "\n" lines) key value = joinWith "\n" lines) := by
  obtain ⟨hknil, hkfree, hkdollar⟩ := supportedKeys_fact key hkeys
  constructor
  · intro h1
    obtain ⟨pre, old, post, heq, hpre0, hpost0, holdm, _⟩ :=
      lineReplace_unique_match key value lines h1
    have hdollar : '$' ∉ (key ++ " = " ++ value).data := by
      have hd : (key ++ " = " ++ value).data =
          key.data ++ (' ' :: '=' :: ' ' :: value.data) := by
        show (key.data ++ [' ', '=', ' ']) ++ value.data =
          key.data ++ (' ' :: '=' :: ' ' :: value.data)
        rw [List.append_assoc]
        rfl
      rw [hd]
      intro hmem
      rcases List.mem_append.mp hmem with hk | hv
      · exact hkdollar hk
      · rcases List.mem_cons.mp hv with h | hv2
        · exact absurd h (by decide)
        · rcases List.mem_cons.mp hv2 with h | hv3
          · exact absurd h (by decide)
          · rcases List.mem_cons.mp hv3 with h | hv4
            · exact absurd h (by decide)
            · exact hval hv4
    have hprefacts : ∀ l ∈ pre, (∀ c ∈ l.data, isLineEnd c = false) ∧
        lineMatches key l = false ∧ dangling key l = false := by
      intro l hl
      have hmem : l ∈ lines := by
        rw [heq]
        exact List.mem_append.mpr (Or.inl hl)
      refine ⟨hfree l hmem, ?_, hnd l hmem⟩
      have hx := List.countP_eq_zero.mp hpre0 l hl
      rw [Bool.not_eq_true] at hx
      exact hx
    have holdfree : ∀ c ∈ old.data, isLineEnd c = false := by
      apply hfree
      rw [heq]
      exact List.mem_append.mpr (Or.inr (List.mem_cons_self old post))
    refine ⟨pre, post, old, heq, holdm, hpre0, hpost0, ?_, ?_⟩
    · rw [heq]
      exact replaceValue_join_match key value hknil hkfree hdollar pre post old
        hprefacts holdfree holdm
    · rw [List.countP_append, List.countP_cons, hpre0, hpost0, lineMatches_inject]
      simp
  · intro h0
    apply replaceValue_join_none key value hkfree lines hfree ?_ hnd
    intro l hl
    have hx := List.countP_eq_zero.mp h0 l hl
    rw [Bool.not_eq_true] at hx
    exact hx

/-- Witness for `replaceValue_round_trip`: a present key (`mcp`) on the
concrete artifact, and an absent one on a two-line artifact. -/
theorem replaceValue_round_trip_witness :
    (∃ pre post old, splitLines paramsFileContent = pre ++ old :: post ∧
      lineMatches "mcp" old = true ∧
      pre.countP (lineMatches "mcp") = 0 ∧ post.countP (lineMatches "mcp") = 0 ∧
      replaceValue (joinWith "\n" (splitLines paramsFileContent)) "mcp" "12" =
        joinWith "\n" (pre ++ ("mcp" ++ " = " ++ "12") :: post) ∧
      (pre ++ ("mcp" ++ " = " ++ "12") :: post).countP (lineMatches "mcp") = 1) ∧
    replaceValue (joinWith "\n" ["fee = 1", "initial_soc = 5"]) "mcp" "9" =
      joinWith "\n" ["fee = 1", "initial_soc = 5"] :=
  ⟨(replaceValue_round_trip (splitLines paramsFileContent) "mcp" "12"
      (by decide) (by decide) (by decide) (by decide)).1 (by decide),
   (replaceValue_round_trip ["fee = 1", "initial_soc = 5"] "mcp" "9"
      (by decide) (by decide) (by decide) (by decide)).2 (by decide)⟩

/-! ## Digits and numeral shape (C8) -/

theorem isDigit_digitChar (d : Nat) (h : d < 10) : (digitChar d).isDigit = true := by
  interval_cases d <;> decide

theorem natDigitsAux_digits :
    ∀ fuel n : Nat, ∀ c ∈ natDigitsAux fuel n, c.isDigit = true := by
  intro fuel
  induction fuel with
  | zero => intro n c hc; cases hc
  | succ f ih =>
    intro n c hc
    simp only [natDigitsAux] at hc
    by_cases hn : n = 0
    · rw [if_pos hn] at hc; cases hc
    · rw [if_neg hn] at hc
      rcases List.mem_append.mp hc with h1 | h2
      · exact ih _ c h1
      · have : c = digitChar (n % 10) := by simpa using h2
        rw [this]
        exact isDigit_digitChar _ (Nat.mod_lt _ (by omega))

theorem natDigits_digits (n : Nat) : ∀ c ∈ natDigits n, c.isDigit = true := by
  intro c hc
  unfold natDigits at hc
  by_cases hn : n = 0
  · rw [if_pos hn] at hc
    have : c = '0' := by simpa using hc
    rw [this]; decide
  · rw [if_neg hn] at hc
    exact natDigitsAux_digits _ _ c hc

theorem natDigits_ne_nil (n : Nat) : natDigits n ≠ [] := by
  unfold natDigits
  by_cases hn : n = 0
  · rw [if_pos hn]; simp
  · rw [if_neg hn]
    rw [natDigitsAux, if_neg hn]
    simp

theorem isUnsignedNumeral_of_digits (l : List Char) (hne : l ≠ [])
    (hd : ∀ c ∈ l, c.isDigit = true) : isUnsignedNumeral l = true := by
  unfold isUnsignedNumeral
  rw [takeWhile_all _ l hd, dropWhile_all _ l hd]
  cases l with
  | nil => cases hne rfl
  | cons c cs => rfl

theorem isUnsignedNumeral_point (ip frac : List Char) (hipne : ip ≠ [])
    (hip : ∀ c ∈ ip, c.isDigit = true) (hfracne : frac ≠ [])
    (hfrac : ∀ c ∈ frac, c.isDigit = true) :
    isUnsignedNumeral (ip ++ '.' :: frac) = true := by
  unfold isUnsignedNumeral
  rw [takeWhile_append_stop _ ip hip '.' (by decide) frac,
      dropWhile_append_stop _ ip hip '.' (by decide) frac]
  cases ip with
  | nil => cases hipne rfl
  | cons c cs =>
    simp only [List.isEmpty_cons, Bool.not_false, Bool.true_and]
    simp [isDigitRun, List.all_eq_true]
    cases frac with
    | nil => cases hfracne rfl
    | cons f fsx =>
      simp
      exact ⟨hfrac f (List.mem_cons_self f fsx),
        fun x hx => hfrac x (List.mem_cons_of_mem f hx)⟩

theorem digit_not_dash (c : Char) (h : c.isDigit = true) : (c == '-') = false := by
  cases hbe : c == '-' with
  | false => rfl
  | true =>
    have hce : c = '-' := eq_of_beq hbe
    rw [hce] at h
    exact absurd h (by decide)

theorem isNumericLiteral_intDigitsStr (m : Int) :
    isNumericLiteral (intDigitsStr m) = true := by
  unfold intDigitsStr isNumericLiteral
  by_cases hm : m < 0
  · rw [if_pos hm]
    show (match '-' :: natDigits m.natAbs with
      | [] => false
      | c :: cs => if c == '-' then isUnsignedNumeral cs
                   else isUnsignedNumeral (c :: cs)) = true
    simp only [beq_self_eq_true, if_true]
    exact isUnsignedNumeral_of_digits _ (natDigits_ne_nil _) (natDigits_digits _)
  · rw [if_neg hm]
    obtain ⟨c, cs, heq⟩ := List.exists_cons_of_ne_nil (natDigits_ne_nil m.natAbs)
    have hcd : c.isDigit = true :=
      natDigits_digits m.natAbs c (by rw [heq]; exact List.mem_cons_self c cs)
    rw [heq]
    show (match c :: cs with
      | [] => false
      | c :: cs => if c == '-' then isUnsignedNumeral cs
                   else isUnsignedNumeral (c :: cs)) = true
    simp only [digit_not_dash c hcd, Bool.false_eq_true, if_false]
    rw [← heq]
    exact isUnsignedNumeral_of_digits _ (natDigits_ne_nil _) (natDigits_digits _)

theorem isNumericLiteral_plainRender (m : Int) (e : Nat) :
    isNumericLiteral (plainRender m e) = true := by
  unfold plainRender
  by_cases he : e = 0
  · rw [if_pos he]
    exact isNumericLiteral_intDigitsStr m
  · rw [if_neg he]
    have hdsne : natDigits m.natAbs ≠ [] := natDigits_ne_nil _
    have hdsd := natDigits_digits m.natAbs
    have hpaddedd : ∀ c ∈ List.replicate (e + 1 - (natDigits m.natAbs).length) '0'
        ++ natDigits m.natAbs, c.isDigit = true := by
      intro c hc
      rcases List.mem_append.mp hc with h | h
      · rw [List.eq_of_mem_replicate h]; decide
      · exact hdsd c h
    set padded := List.replicate (e + 1 - (natDigits m.natAbs).length) '0'
      ++ natDigits m.natAbs with hpadded
    set k := padded.length - e with hk
    have hplen : e + 1 ≤ padded.length := by
      rw [hpadded]
      have h1 : (natDigits m.natAbs).length ≠ 0 := by
        intro hc; exact hdsne (List.length_eq_zero.mp hc)
      simp only [List.length_append, List.length_replicate]
      omega
    have htlen : (padded.take k).length = k := by
      rw [List.length_take]
      omega
    have hdlen : (padded.drop k).length = e := by
      rw [List.length_drop]
      omega
    have htakene : padded.take k ≠ [] := by
      intro hnil
      rw [hnil] at htlen
      simp at htlen
      omega
    have hdropne : padded.drop k ≠ [] := by
      intro hnil
      rw [hnil] at hdlen
      simp at hdlen
      omega
    have htaked : ∀ c ∈ padded.take k, c.isDigit = true :=
      fun c hc => hpaddedd c (List.take_subset _ _ hc)
    have hdropd : ∀ c ∈ padded.drop k, c.isDigit = true :=
      fun c hc => hpaddedd c (List.drop_subset _ _ hc)
    have hnum : isUnsignedNumeral (padded.take k ++ '.' :: padded.drop k) = true :=
      isUnsignedNumeral_point _ _ htakene htaked hdropne hdropd
    by_cases hmd : m < 0
    · rw [if_pos hmd]
      unfold isNumericLiteral
      have hdata : ("-" ++ String.mk (padded.take k) ++ "." ++ String.mk (padded.drop k)).data
          = '-' :: (padded.take k ++ '.' :: padded.drop k) := by
        show (('-' :: padded.take k) ++ ['.']) ++ padded.drop k
          = '-' :: (padded.take k ++ '.' :: padded.drop k)
        simp [List.append_assoc]
      rw [hdata]
      simp only [beq_self_eq_true, if_true]
      exact hnum
    · rw [if_neg hmd]
      unfold isNumericLiteral
      obtain ⟨c, cs, heq⟩ := List.exists_cons_of_ne_nil htakene
      have hcd : c.isDigit = true :=
        htaked c (by rw [heq]; exact List.mem_cons_self c cs)
      have hdata : ("" ++ String.mk (padded.take k) ++ "." ++ String.mk (padded.drop k)).data
          = padded.take k ++ '.' :: padded.drop k := by
        show (padded.take k ++ ['.']) ++ padded.drop k
          = padded.take k ++ '.' :: padded.drop k
        simp [List.append_assoc]
      rw [hdata, heq, List.cons_append]
      simp only [digit_not_dash c hcd, Bool.false_eq_true, if_false]
      rw [← List.cons_append, ← heq]
      exact hnum

/-- A number in the plain range prints as `0` or as a plain decimal
numeral. -/
theorem isNumericLiteral_jsNumToString_plain (n : JsNum) (hp : plainRange n = true) :
    isNumericLiteral (jsNumToString n) = true := by
  cases n with
  | nan => simp [plainRange] at hp
  | inf s => simp [plainRange] at hp
  | dec m e =>
    simp only [plainRange] at hp
    show isNumericLiteral (if (normDec m e).1 = 0 then "0"
      else if plainDec (normDec m e).1 (normDec m e).2 = true
        then plainRender (normDec m e).1 (normDec m e).2
        else expRender (normDec m e).1 (normDec m e).2) = true
    rcases hnd : normDec m e with ⟨md, ed⟩
    rw [hnd] at hp
    simp only [Bool.or_eq_true] at hp
    show isNumericLiteral (if md = 0 then "0"
      else if plainDec md ed = true then plainRender md ed else expRender md ed) = true
    by_cases h0 : md = 0
    · rw [if_pos h0]; decide
    · have hpd : plainDec md ed = true := by
        rcases hp with hp | hp
        · exact absurd (by simpa using hp) h0
        · exact hp
      rw [if_neg h0, if_pos hpd]
      exact isNumericLiteral_plainRender md ed

/-- Any non-missing value serializes to the decimal rendering of its
numeric coercion, which is a plain numeric literal whenever that number
lies in the plain range. -/
theorem toPythonValue_literal (v : JsVal) (h : jsMissing v = false)
    (hp : plainRange (toNumber v) = true) :
    isNumericLiteral (toPythonValue v) = true := by
  unfold toPythonValue
  rw [h]
  simp only [Bool.false_eq_true, if_false]
  exact isNumericLiteral_jsNumToString_plain _ hp

/-- A value whose `rampAbsent` checks all fail and whose coercion is not
NaN is not missing. -/
theorem jsMissing_false_of_present (v : JsVal) (hra : rampAbsent v = false)
    (hnan : jsIsNaN v = false) : jsMissing v = false := by
  simp only [rampAbsent, Bool.or_eq_false_iff] at hra
  simp [jsMissing, hra.1.1, hra.1.2, hra.2, hnan]

/-- Counterexample to claim C8 as stated: `reserveRamp = "abc"` is present
(neither null, undefined nor empty) yet serializes to the NaN sentinel,
refuting the ramp arm; and the values `"Infinity"` and `1e21` are neither
null, absent, empty nor NaN, yet serialize to `Infinity` and `1e+21` —
not plain numeric literals — refuting the general arm. -/
theorem serialization_contract_counterexample :
    rampAbsent (JsVal.str "abc") = false ∧
    rampSerialize (JsVal.str "abc") = "float('nan')" ∧
    isNumericLiteral (rampSerialize (JsVal.str "abc")) = false ∧
    rampSerialize (JsVal.str "abc") ≠ "None" ∧
    jsMissing (JsVal.str "Infinity") = false ∧
    toPythonValue (JsVal.str "Infinity") = "Infinity" ∧
    isNumericLiteral "Infinity" = false ∧
    jsMissing (JsVal.num (JsNum.dec (10 ^ 21) 0)) = false ∧
    toPythonValue (JsVal.num (JsNum.dec (10 ^ 21) 0)) = "1e+21" ∧
    isNumericLiteral "1e+21" = false ∧
    toPythonValue (JsVal.num (JsNum.dec 1 7)) = "1e-7" ∧
    isNumericLiteral "1e-7" = false := by decide

/-- Claim C8, amended: a missing value (null/absent/empty/not-a-number)
serializes to the NaN sentinel; any other value serializes as the decimal
rendering of `Number(value)` — a plain numeric literal whenever that number
is zero or of magnitude in `[1e-6, 1e21)`, JS exponent notation outside
that range, and `Infinity`/`-Infinity` for infinite coercions.  The
reserve-ramp parameter serializes to the no-limit sentinel exactly when
absent (null/undefined/empty); a present value goes through the same
numeric serialization (so a present non-numeric value yields the NaN
sentinel, and a present plain-range numeric value a numeric literal). -/
theorem serialization_contract (v : JsVal) :
    (jsMissing v = true → toPythonValue v = "float('nan')") ∧
    (jsMissing v = false → toPythonValue v = jsNumToString (toNumber v)) ∧
    (jsMissing v = false → plainRange (toNumber v) = true →
      isNumericLiteral (toPythonValue v) = true) ∧
    (∀ s, toNumber v = JsNum.inf s →
      toPythonValue v = (if s then "Infinity" else "-Infinity")) ∧
    (rampAbsent v = true → rampSerialize v = "None") ∧
    (rampAbsent v = false → rampSerialize v = toPythonValue v) ∧
    (rampAbsent v = false → jsIsNaN v = true → rampSerialize v = "float('nan')") ∧
    (rampAbsent v = false → jsIsNaN v = false → plainRange (toNumber v) = true →
      isNumericLiteral (rampSerialize v) = true) := by
  refine ⟨?_, ?_, toPythonValue_literal v, ?_, ?_, ?_, ?_, ?_⟩
  · intro h
    simp [toPythonValue, h]
  · intro h
    simp [toPythonValue, h]
  · intro s hs
    have hm : jsMissing v = false := by
      cases v with
      | null => exact absurd hs (by simp [toNumber])
      | undef => exact absurd hs (by simp [toNumber])
      | boolean b => exact absurd hs (by simp [toNumber])
      | num n =>
        have hn : n = JsNum.inf s := hs
        subst hn
        simp [jsMissing, jsIsNaN, toNumber]
      | str s2 =>
        have hne : s2 ≠ "" := by
          intro h0
          rw [h0] at hs
          have h1 : toNumber (JsVal.str "") = JsNum.dec 0 0 := by decide
          rw [h1] at hs
          exact JsNum.noConfusion hs
        have hps : parseNumber s2 = JsNum.inf s := hs
        simp [jsMissing, jsIsNaN, toNumber, hps, hne]
    simp [toPythonValue, hm, hs, jsNumToString]
  · intro h
    simp [rampSerialize, h]
  · intro hra
    simp [rampSerialize, hra]
  · intro hra hnan
    have hmiss : jsMissing v = true := by
      simp [jsMissing, hnan]
    simp [rampSerialize, hra, toPythonValue, hmiss]
  · intro hra hnan hp
    have hmiss := jsMissing_false_of_present v hra hnan
    have hser : rampSerialize v = toPythonValue v := by
      simp [rampSerialize, hra]
    rw [hser]
    exact toPythonValue_literal v hmiss hp

/-- Witness for `serialization_contract` across its arms: the sentinel, a
plain literal, an infinite coercion, and the three ramp behaviours. -/
theorem serialization_contract_witness :
    toPythonValue JsVal.undef = "float('nan')" ∧
    toPythonValue (JsVal.num (JsNum.dec 8 1)) =
      jsNumToString (toNumber (JsVal.num (JsNum.dec 8 1))) ∧
    isNumericLiteral (toPythonValue (JsVal.num (JsNum.dec 8 1))) = true ∧
    toPythonValue (JsVal.str "-Infinity") = "-Infinity" ∧
    rampSerialize JsVal.null = "None" ∧
    rampSerialize (JsVal.str "7.5") = toPythonValue (JsVal.str "7.5") ∧
    rampSerialize (JsVal.num JsNum.nan) = "float('nan')" ∧
    isNumericLiteral (rampSerialize (JsVal.num (JsNum.dec 25 1))) = true :=
  ⟨(serialization_contract JsVal.undef).1 rfl,
   (serialization_contract (JsVal.num (JsNum.dec 8 1))).2.1 (by decide),
   (serialization_contract (JsVal.num (JsNum.dec 8 1))).2.2.1 (by decide) (by decide),
   (serialization_contract (JsVal.str "-Infinity")).2.2.2.1 false (by decide),
   (serialization_contract JsVal.null).2.2.2.2.1 rfl,
   (serialization_contract (JsVal.str "7.5")).2.2.2.2.2.1 (by decide),
   (serialization_contract (JsVal.num JsNum.nan)).2.2.2.2.2.2.1 (by decide) (by decide),
   (serialization_contract (JsVal.num (JsNum.dec 25 1))).2.2.2.2.2.2.2 (by decide) (by decide)
     (by decide)⟩

end NRG
